import Mathlib

set_option maxRecDepth 16000

/-!
# Verification of the `LeadScorer` engine (`audit/lead_scorer.py`)

This file is a shallow embedding of the deterministic lead-scoring engine:
the category-score extraction, the weighted composite score, the priority
classification and issue-count escalation, the qualification score, the
service recommendation, and the issue counters.

The Python code computes the composite score and the load-speed
interpolation in IEEE-754 double precision (`int * float` products, a
`sum(...)` of floats, `round`, `/`, and `int(...)`).  Every double that
appears in those computations is a dyadic rational, so the embedding
models doubles exactly as pairs `(m, t) : ℕ × ℤ` denoting `m * 2 ^ t`,
with a `round to 53 significant bits, ties to even` normalisation step
`flN` applied after each arithmetic operation, exactly as the hardware
does.  All definitions are executable; rational numbers appear only in
statements and proofs.
-/

/-! ## Python dictionary fields

A field read from an audit dictionary is either missing from the
dictionary, present with value `None`, or present with a value.  Python's
`dict.get(k)` returns `None` both for a missing key and for a stored
`None`; `dict.get(k, d)` returns `d` only for a missing key.  The scorer
uses both access patterns, and also boolean truthiness (`x or 0`,
`if load_ms:`), so the three cases are kept apart.
-/

inductive PyVal (α : Type) where
  | absent : PyVal α
  | pynone : PyVal α
  | val : α → PyVal α
deriving DecidableEq, Repr

open PyVal

/-- `audit.get(key) or 0` for an integer field: missing keys and `None`
read as `None`, and `or 0` maps every falsy value (`None`, `0`) to `0`. -/
def orZero (f : PyVal Nat) : Nat :=
  match f with
  | absent => 0
  | pynone => 0
  | val v => if v = 0 then 0 else v

/-- truthiness of `audit.get(key)` for a boolean field: `None` (missing
key or stored `None`) and `False` are falsy. -/
def truthy (f : PyVal Bool) : Bool :=
  match f with
  | absent => false
  | pynone => false
  | val b => b

/-- an entry of the `major_issues` list; the scorer only reads
`i.get('severity')`. -/
structure Issue where
  severity : PyVal String
deriving DecidableEq, Repr

/-- the audit dictionary as read by `LeadScorer.score`. -/
structure Audit where
  performance_score : PyVal Nat
  seo_score : PyVal Nat
  accessibility_score : PyVal Nat
  mobile_friendly : PyVal Bool
  ssl_valid : PyVal Bool
  has_title : PyVal Bool
  has_meta_description : PyVal Bool
  has_viewport : PyVal Bool
  has_og_tags : PyVal Bool
  has_favicon : PyVal Bool
  load_time_ms : PyVal Nat
  major_issues : PyVal (List Issue)
deriving DecidableEq, Repr

/-- the `scores` dictionary built by `LeadScorer.score`, in insertion
order: performance, seo, accessibility, mobile, ssl, meta_quality,
load_speed. -/
structure CatScores where
  performance : Nat
  seo : Nat
  accessibility : Nat
  mobile : Nat
  ssl : Nat
  meta_quality : Nat
  load_speed : Nat
deriving DecidableEq, Repr

/-- the result dictionary returned by `LeadScorer.score`. -/
structure ScoringResult where
  composite_score : Int
  priority : String
  individual_scores : CatScores
  critical_issues : Nat
  warning_issues : Nat
  total_issues : Nat
  recommended_service : String
  qualification_score : Int
deriving DecidableEq, Repr

/-! ## Exact model of IEEE-754 double-precision rounding

A double is represented as `(m, t) : ℕ × ℤ` standing for `m * 2 ^ t`
(all doubles reached by the scorer are non-negative).  `flN a b` is the
correctly rounded (round-to-nearest, ties-to-even) double value of the
non-negative rational `a / b`; every float operation of the source is one
exact rational operation followed by `flN`.
-/

/-- one halving step of the binary floor-log2 search: if `2 ^ k` still
divides into the remaining mantissa, absorb it into the exponent. -/
def lstep (k : Nat) (p : Nat × Nat) : Nat × Nat :=
  if 2 ^ k ≤ p.2 then (p.1 + k, p.2 / 2 ^ k) else p

/-- `⌊log₂ n⌋` for `1 ≤ n < 2 ^ 1024`, by binary splitting. -/
def log2f (n : Nat) : Nat :=
  (lstep 1 (lstep 2 (lstep 4 (lstep 8 (lstep 16 (lstep 32 (lstep 64 (lstep 128 (lstep 256 (lstep 512 (0, n))))))))))).1

/-- `A / B` rounded to the nearest integer, ties to even. -/
def rheDiv (A B : Nat) : Nat :=
  let q := A / B
  let r := A % B
  if B < 2 * r then q + 1
  else if 2 * r < B then q
  else q + q % 2

/-- the binade exponent of `a / b`: the `e` with `2 ^ e ≤ a / b < 2 ^ (e + 1)`
(for `1 ≤ a, b < 2 ^ 1024`), found from the integer floor-log2s of `a` and
`b` with a one-step correction. -/
def flE (a b : Nat) : Int :=
  let e0 : Int := (log2f a : Int) - (log2f b : Int)
  let ok : Bool := if 0 ≤ e0 then decide (2 ^ e0.toNat * b ≤ a) else decide (b ≤ a * 2 ^ (-e0).toNat)
  if ok then e0 else e0 - 1

/-- the 53-bit mantissa of `a / b`: scale the quotient into
`[2 ^ 52, 2 ^ 53)` and round to the nearest integer, ties to even. -/
def flM (a b : Nat) : Nat :=
  let shift : Int := 52 - flE a b
  if 0 ≤ shift then rheDiv (a * 2 ^ shift.toNat) b else rheDiv a (b * 2 ^ (-shift).toNat)

/-- the double nearest to `a / b` (ties to even), for `1 ≤ a, b < 2 ^ 1024`. -/
def flN (a b : Nat) : Nat × Int :=
  if a = 0 then (0, 0) else (flM a b, flE a b - 52)

/-- round the exact dyadic value `m * 2 ^ t` to the nearest double. -/
def flD (m : Nat) (t : Int) : Nat × Int :=
  if m = 0 then (0, 0)
  else if 0 ≤ t then flN (m * 2 ^ t.toNat) 1
  else flN m (2 ^ (-t).toNat)

/-- correctly rounded double addition: align the two exponents, add the
mantissas exactly, and round the result to 53 bits. -/
def addF (x y : Nat × Int) : Nat × Int :=
  let t := min x.2 y.2
  flD (x.1 * 2 ^ (x.2 - t).toNat + y.1 * 2 ^ (y.2 - t).toNat) t

/-- Python's `round` on a non-negative double: round the exact value of
the double to the nearest integer, ties to even. -/
def pyRound (x : Nat × Int) : Nat :=
  if 0 ≤ x.2 then x.1 * 2 ^ x.2.toNat else rheDiv x.1 (2 ^ (-x.2).toNat)

/-- Python's `int(...)` on a non-negative double: truncate toward zero. -/
def floorD (x : Nat × Int) : Nat :=
  if 0 ≤ x.2 then x.1 * 2 ^ x.2.toNat else x.1 / 2 ^ (-x.2).toNat

/-- the exact rational value of a modelled double. -/
def dval (x : Nat × Int) : ℚ := (x.1 : ℚ) * 2 ^ x.2

/-! ## The weight constants

`LeadScorer.WEIGHTS` stores the Python float literals `0.25`, `0.20`,
`0.15`, `0.10`, `0.05`.  As doubles these are the dyadic rationals below
(mantissa, exponent); only `0.25` is exact.
-/

def w25 : Nat × Int := (1, -2)
def w20 : Nat × Int := (3602879701896397, -54)
def w15 : Nat × Int := (5404319552844595, -55)
def w10 : Nat × Int := (3602879701896397, -55)
def w05 : Nat × Int := (3602879701896397, -56)

/-- `scores[key] * cls.WEIGHTS[key]`: the integer score is exact as a
double, so the product is the weight mantissa scaled by the score, then
rounded. -/
def prodW (s : Nat) (w : Nat × Int) : Nat × Int := flD (s * w.1) w.2

/-- `sum(scores[key] * cls.WEIGHTS[key] for key in cls.WEIGHTS)`:
left fold of correctly rounded additions starting from `0`, in the
insertion order of `WEIGHTS`. -/
def compF (s : CatScores) : Nat × Int :=
  addF (addF (addF (addF (addF (addF (addF (0, 0)
    (prodW s.performance w25))
    (prodW s.seo w20))
    (prodW s.accessibility w15))
    (prodW s.mobile w15))
    (prodW s.ssl w10))
    (prodW s.meta_quality w10))
    (prodW s.load_speed w05)

/-- `composite = round(sum(...))`. -/
def compositeFloat (s : CatScores) : Int := (pyRound (compF s) : Int)

/-- twenty times the exact weighted sum: the exact composite value is
`weightSum s / 20` with weights `(0.25, 0.20, 0.15, 0.15, 0.10, 0.10, 0.05)`. -/
def weightSum (s : CatScores) : Nat :=
  5 * s.performance + 4 * s.seo + 3 * s.accessibility + 3 * s.mobile +
    2 * s.ssl + 2 * s.meta_quality + s.load_speed

/-- round-half-to-even of `n / 20`, the rounding rule named by the spec
for the exact weighted sum. -/
def rhe20 (n : Nat) : Nat := rheDiv n 20

/-! ## The scorer -/

/-- the interpolation branch of the load-speed score, as the source
computes it: `int(100 - ((load_ms - 1000) / 4000) * 100)` with `/`, `*`
and `-` in double precision (for `1000 < load_ms < 5000`). -/
def loadInterp (v : Nat) : Nat :=
  let d1 := flN (v - 1000) 4000
  let d2 := flD (100 * d1.1) d1.2
  let d3 := flD (100 * 2 ^ (-d2.2).toNat - d2.1) d2.2
  floorD d3

/-- the `load_speed` category score.  The source tests `if load_ms:`,
so a missing key, a stored `None` and a stored `0` all take the
else-branch and score 50. -/
def loadSpeedScore (f : PyVal Nat) : Nat :=
  match f with
  | absent => 50
  | pynone => 50
  | val v =>
    if v = 0 then 50
    else if v ≤ 1000 then 100
    else if 5000 ≤ v then 0
    else loadInterp v

/-- the meta-quality score: 20 points per truthy flag among
`has_title`, `has_meta_description`, `has_viewport`, `has_og_tags`,
`has_favicon`. -/
def metaQuality (a : Audit) : Nat :=
  (if truthy a.has_title then 20 else 0) +
    (if truthy a.has_meta_description then 20 else 0) +
    (if truthy a.has_viewport then 20 else 0) +
    (if truthy a.has_og_tags then 20 else 0) +
    (if truthy a.has_favicon then 20 else 0)

/-- the `scores` dictionary built by `LeadScorer.score`. -/
def catScores (a : Audit) : CatScores where
  performance := orZero a.performance_score
  seo := orZero a.seo_score
  accessibility := orZero a.accessibility_score
  mobile := if truthy a.mobile_friendly then 100 else 0
  ssl := if truthy a.ssl_valid then 100 else 0
  meta_quality := metaQuality a
  load_speed := loadSpeedScore a.load_time_ms

/-- `LeadScorer._classify`. -/
def classify (score : Int) : String :=
  if score < 50 then "HOT"
  else if score < 70 then "WARM"
  else if score < 85 then "COLD"
  else "SKIP"

/-- `i.get('severity') == s` for an issue dictionary entry. -/
def sevIs (s : String) (i : Issue) : Bool :=
  match i.severity with
  | val t => t = s
  | _ => false

/-- `LeadScorer._qualification_score`: `min(100 - composite + min(critical_count * 5, 25), 100)`. -/
def qualificationScore (composite : Int) (critical_count : Nat) : Int :=
  min (100 - composite + min (critical_count * 5) 25) 100

/-- the per-category service labels of `pitch_map` (only the `service`
entries matter to the scorer's result). -/
def pitchService (category : String) : String :=
  if category = "performance" then "Performance Optimization"
  else if category = "seo" then "SEO Improvement"
  else if category = "mobile" then "Mobile Responsiveness"
  else if category = "accessibility" then "Accessibility & UX Fix"
  else if category = "ssl" then "Security Setup"
  else if category = "meta_quality" then "SEO Foundation"
  else "Website Improvement"

/-- Python's `min(xs, key=lambda x: x[1])`: keep the current element
unless a strictly smaller key appears, so the first minimum wins. -/
def minByVal (x : String × Nat) : List (String × Nat) → String × Nat
  | [] => x
  | y :: ys => minByVal (if y.2 < x.2 then y else x) ys

/-- `LeadScorer._recommend_service`: the `scores.items()` list in
insertion order, with `load_speed` filtered out, minimised by score. -/
def recommendService (s : CatScores) : String :=
  let items := [("performance", s.performance), ("seo", s.seo),
    ("accessibility", s.accessibility), ("mobile", s.mobile),
    ("ssl", s.ssl), ("meta_quality", s.meta_quality),
    ("load_speed", s.load_speed)]
  match items.filter (fun kv => kv.1 ≠ "load_speed") with
  | [] => "Website Improvement"
  | x :: xs => pitchService (minByVal x xs).1

/-- `LeadScorer.score`.  Returns `none` exactly when the computation
raises: `audit.get('major_issues', [])` yields `None` for a stored
`None`, and iterating it (`sum(1 for i in issues ...)`) then raises
`TypeError`. -/
def score (a : Audit) : Option ScoringResult :=
  let scores := catScores a
  let composite := compositeFloat scores
  let priority0 := classify composite
  match a.major_issues with
  | pynone => none
  | absent => some (scoreResult scores composite priority0 [])
  | val issues => some (scoreResult scores composite priority0 issues)
where
  scoreResult (scores : CatScores) (composite : Int) (priority0 : String)
      (issues : List Issue) : ScoringResult :=
    let critical_count := (issues.filter (sevIs "critical")).length
    let warning_count := (issues.filter (sevIs "warning")).length
    let priority1 := if 3 ≤ critical_count ∧ priority0 = "COLD" then "WARM" else priority0
    let priority := if 5 ≤ critical_count then "HOT" else priority1
    { composite_score := composite
      priority := priority
      individual_scores := scores
      critical_issues := critical_count
      warning_issues := warning_count
      total_issues := issues.length
      recommended_service := recommendService scores
      qualification_score := qualificationScore composite critical_count }

/-! ## Specification-side and auxiliary definitions -/

/-- round-half-to-even on a rational. -/
def rheQ (q : ℚ) : Int :=
  if q - ⌊q⌋ < 1 / 2 then ⌊q⌋
  else if 1 / 2 < q - ⌊q⌋ then ⌊q⌋ + 1
  else ⌊q⌋ + ⌊q⌋ % 2

/-- bounded divide-and-conquer boolean checker for a range of naturals. -/
def checkAll (f : Nat → Bool) : Nat → Nat → Nat → Bool
  | 0, _, c => c = 0
  | fuel + 1, s, c =>
    if c = 0 then true
    else if c = 1 then f s
    else checkAll f fuel s (c / 2) && checkAll f fuel (s + c / 2) (c - c / 2)

/-- the load-speed interpolation as the double-precision code actually
computes it: exact truncation of the linear ramp except at 3200 ms and
3240 ms, where the accumulated rounding error lands just below the exact
integer value. -/
def loadAmended (v : Nat) : Nat :=
  if v = 3200 then 44 else if v = 3240 then 43 else (5000 - v) / 40

/-- well-formedness of a stored numeric score: if present with a value,
the value is in the documented 0-100 range. -/
def validScoreB (f : PyVal Nat) : Bool :=
  match f with
  | val v => v ≤ 100
  | _ => true

/-- the documented domain of an audit snapshot: the three numeric
PageSpeed scores, when present, are at most 100. -/
def ValidAudit (a : Audit) : Prop :=
  validScoreB a.performance_score = true ∧ validScoreB a.seo_score = true ∧
    validScoreB a.accessibility_score = true

instance (a : Audit) : Decidable (ValidAudit a) := by
  unfold ValidAudit
  infer_instance

/-- the spec's description of the service recommendation: the first
category, in the fixed precedence order performance, seo, accessibility,
mobile, ssl, meta_quality, whose score equals the minimum of those six
scores, mapped through the static service table. -/
def recommendServiceSpec (s : CatScores) : String :=
  let m := min s.performance (min s.seo (min s.accessibility (min s.mobile
    (min s.ssl s.meta_quality))))
  if s.performance = m then "Performance Optimization"
  else if s.seo = m then "SEO Improvement"
  else if s.accessibility = m then "Accessibility & UX Fix"
  else if s.mobile = m then "Mobile Responsiveness"
  else if s.ssl = m then "Security Setup"
  else "SEO Foundation"

/-- replace a missing or `None` field by an explicitly stored default. -/
def fillF {α : Type} (f : PyVal α) (d : α) : PyVal α :=
  match f with
  | absent => val d
  | pynone => val d
  | val v => val v

/-- the audit with every missing or `None` field replaced by its
documented default: numeric scores 0, booleans false, load time 0
(scored as the neutral 50), issue list empty. -/
def fillDefaults (a : Audit) : Audit where
  performance_score := fillF a.performance_score 0
  seo_score := fillF a.seo_score 0
  accessibility_score := fillF a.accessibility_score 0
  mobile_friendly := fillF a.mobile_friendly false
  ssl_valid := fillF a.ssl_valid false
  has_title := fillF a.has_title false
  has_meta_description := fillF a.has_meta_description false
  has_viewport := fillF a.has_viewport false
  has_og_tags := fillF a.has_og_tags false
  has_favicon := fillF a.has_favicon false
  load_time_ms := fillF a.load_time_ms 0
  major_issues := fillF a.major_issues []

/-- the spec-side description of the load-speed category score amended
to the code's actual behaviour: a stored `0` scores 50 like a missing
value, and the double-precision ramp departs from exact truncation at
3200 ms and 3240 ms. -/
def loadSpeedSpecAmended (f : PyVal Nat) : Nat :=
  match f with
  | absent => 50
  | pynone => 50
  | val v =>
    if v = 0 then 50
    else if v ≤ 1000 then 100
    else if 5000 ≤ v then 0
    else loadAmended v

/-! ## Correctness of the binade search -/

/-- invariant of the binary floor-log2 search: the pair `(e, m)` brackets
`N` as `m * 2 ^ e ≤ N < (m + 1) * 2 ^ e` with `1 ≤ m`. -/
def LogInv (N : Nat) (p : Nat × Nat) : Prop :=
  1 ≤ p.2 ∧ p.2 * 2 ^ p.1 ≤ N ∧ N < (p.2 + 1) * 2 ^ p.1

theorem lstep_inv (N k : Nat) (p : Nat × Nat) (h : LogInv N p) :
    LogInv N (lstep k p) := by
  obtain ⟨h1, h2, h3⟩ := h
  unfold lstep
  by_cases hk : 2 ^ k ≤ p.2
  · rw [if_pos hk]
    have hpow : 0 < 2 ^ k := Nat.pos_pow_of_pos k (by norm_num)
    refine ⟨Nat.one_le_div_iff hpow |>.2 hk, ?_, ?_⟩
    · calc p.2 / 2 ^ k * 2 ^ (p.1 + k) = p.2 / 2 ^ k * 2 ^ k * 2 ^ p.1 := by ring
        _ ≤ p.2 * 2 ^ p.1 := by
            exact Nat.mul_le_mul_right _ (Nat.div_mul_le_self _ _)
        _ ≤ N := h2
    · have hstep : p.2 + 1 ≤ (p.2 / 2 ^ k + 1) * 2 ^ k := by
        have hmod : p.2 % 2 ^ k < 2 ^ k := Nat.mod_lt _ hpow
        have hdm : 2 ^ k * (p.2 / 2 ^ k) + p.2 % 2 ^ k = p.2 := Nat.div_add_mod _ _
        have hmain : p.2 + 1 ≤ 2 ^ k * (p.2 / 2 ^ k) + 2 ^ k := by omega
        calc p.2 + 1 ≤ 2 ^ k * (p.2 / 2 ^ k) + 2 ^ k := hmain
          _ = (p.2 / 2 ^ k + 1) * 2 ^ k := by ring
      calc N < (p.2 + 1) * 2 ^ p.1 := h3
        _ ≤ (p.2 / 2 ^ k + 1) * 2 ^ k * 2 ^ p.1 := Nat.mul_le_mul_right _ hstep
        _ = (p.2 / 2 ^ k + 1) * 2 ^ (p.1 + k) := by ring
  · rw [if_neg hk]
    exact ⟨h1, h2, h3⟩

theorem lstep_small (k : Nat) (p : Nat × Nat) (h : p.2 < 2 ^ (2 * k)) :
    (lstep k p).2 < 2 ^ k := by
  unfold lstep
  by_cases hk : 2 ^ k ≤ p.2
  · rw [if_pos hk]
    have hpow : 0 < 2 ^ k := Nat.pos_pow_of_pos k (by norm_num)
    have : p.2 < 2 ^ k * 2 ^ k := by
      have : 2 ^ (2 * k) = 2 ^ k * 2 ^ k := by rw [two_mul, pow_add]
      omega
    exact Nat.div_lt_iff_lt_mul hpow |>.2 this
  · rw [if_neg hk]
    exact lt_of_not_le hk

theorem log2f_spec (n : Nat) (h1 : 1 ≤ n) (h2 : n < 2 ^ 1024) :
    2 ^ log2f n ≤ n ∧ n < 2 ^ (log2f n + 1) := by
  have i0 : LogInv n (0, n) := by
    refine ⟨h1, by simp, by simp⟩
  have s0 : (0, n).2 < 2 ^ (2 * 512) := h2
  have im1 := lstep_inv n 512 _ i0
  have sm1 := lstep_small 512 _ s0
  have im2 := lstep_inv n 256 _ im1
  have sm2 := lstep_small 256 _ sm1
  have i1 := lstep_inv n 128 _ im2
  have s1 := lstep_small 128 _ sm2
  have i2 := lstep_inv n 64 _ i1
  have s2 := lstep_small 64 _ s1
  have i3 := lstep_inv n 32 _ i2
  have s3 := lstep_small 32 _ s2
  have i4 := lstep_inv n 16 _ i3
  have s4 := lstep_small 16 _ s3
  have i5 := lstep_inv n 8 _ i4
  have s5 := lstep_small 8 _ s4
  have i6 := lstep_inv n 4 _ i5
  have s6 := lstep_small 4 _ s5
  have i7 := lstep_inv n 2 _ i6
  have s7 := lstep_small 2 _ s6
  have i8 := lstep_inv n 1 _ i7
  have s8 := lstep_small 1 _ s7
  obtain ⟨a1, a2, a3⟩ := i8
  have hm : (lstep 1 (lstep 2 (lstep 4 (lstep 8 (lstep 16 (lstep 32 (lstep 64 (lstep 128 (lstep 256 (lstep 512 (0, n))))))))))).2 = 1 := by
    omega
  unfold log2f
  rw [hm] at a2 a3
  constructor
  · simpa using a2
  · have : n < 2 * 2 ^ (lstep 1 (lstep 2 (lstep 4 (lstep 8 (lstep 16 (lstep 32 (lstep 64 (lstep 128 (lstep 256 (lstep 512 (0, n))))))))))).1 := by
      omega
    calc n < 2 * 2 ^ _ := this
      _ = 2 ^ (_ + 1) := by rw [pow_succ]; ring

/-! ## Round-to-nearest, ties-to-even, on rationals -/

theorem rheQ_le (q : ℚ) : ⌊q⌋ ≤ rheQ q := by
  unfold rheQ
  have := Int.emod_two_eq ⌊q⌋
  split_ifs <;> omega

theorem rheQ_ge (q : ℚ) : rheQ q ≤ ⌊q⌋ + 1 := by
  unfold rheQ
  have := Int.emod_two_eq ⌊q⌋
  split_ifs <;> omega

theorem rheQ_abs (q : ℚ) : |(rheQ q : ℚ) - q| ≤ 1 / 2 := by
  have hfl : (⌊q⌋ : ℚ) ≤ q := Int.floor_le q
  have hfu : q < ⌊q⌋ + 1 := Int.lt_floor_add_one q
  unfold rheQ
  split_ifs with h1 h2
  · rw [abs_le]; constructor <;> push_cast <;> linarith
  · rw [abs_le]; constructor <;> push_cast <;> linarith
  · have he : q - ⌊q⌋ = 1 / 2 := le_antisymm (not_lt.1 h2) (not_lt.1 h1)
    have hm := Int.emod_two_eq ⌊q⌋
    rw [abs_le]
    rcases hm with hm | hm <;> rw [hm] <;> constructor <;> push_cast <;> linarith

theorem rheQ_of_lt {q : ℚ} (h : q - ⌊q⌋ < 1 / 2) : rheQ q = ⌊q⌋ := by
  unfold rheQ
  rw [if_pos h]

theorem rheQ_of_gt {q : ℚ} (h : 1 / 2 < q - ⌊q⌋) : rheQ q = ⌊q⌋ + 1 := by
  unfold rheQ
  rw [if_neg (by linarith), if_pos h]

theorem rheQ_mono {q q' : ℚ} (h : q ≤ q') : rheQ q ≤ rheQ q' := by
  have hf : ⌊q⌋ ≤ ⌊q'⌋ := Int.floor_le_floor h
  by_cases hflt : ⌊q⌋ < ⌊q'⌋
  · calc rheQ q ≤ ⌊q⌋ + 1 := rheQ_ge q
      _ ≤ ⌊q'⌋ := by omega
      _ ≤ rheQ q' := rheQ_le q'
  · have heq : ⌊q⌋ = ⌊q'⌋ := by omega
    have hr : q - (⌊q⌋ : ℚ) ≤ q' - ⌊q'⌋ := by rw [heq]; linarith
    by_cases c1 : q' - ⌊q'⌋ < 1 / 2
    · rw [rheQ_of_lt (lt_of_le_of_lt hr c1), rheQ_of_lt c1, heq]
    · by_cases c2 : 1 / 2 < q' - ⌊q'⌋
      · rw [rheQ_of_gt c2]
        have := rheQ_ge q
        omega
      · by_cases c3 : q - ⌊q⌋ < 1 / 2
        · rw [rheQ_of_lt c3, heq]
          exact rheQ_le q'
        · have hq : q = q' := by
            have h1 : q - (⌊q⌋ : ℚ) = 1 / 2 := le_antisymm (by linarith [hr, not_lt.1 c2]) (not_lt.1 c3)
            have h2 : q' - (⌊q'⌋ : ℚ) = 1 / 2 := le_antisymm (not_lt.1 c2) (by rw [← h1]; exact hr)
            have : (⌊q⌋ : ℚ) = (⌊q'⌋ : ℚ) := by exact_mod_cast heq
            linarith
          rw [hq]

/-- `rheDiv` computes `rheQ` of the corresponding rational quotient. -/
theorem rheDiv_eq_rheQ (A B : Nat) (hB : 0 < B) :
    (rheDiv A B : Int) = rheQ ((A : ℚ) / B) := by
  have hB0 : (B : ℚ) ≠ 0 := by positivity
  have hBpos : (0 : ℚ) < B := by positivity
  have hdm : B * (A / B) + A % B = A := Nat.div_add_mod A B
  have hmod : A % B < B := Nat.mod_lt _ hB
  have hAq : (A : ℚ) = B * (A / B : ℕ) + (A % B : ℕ) := by exact_mod_cast hdm.symm
  have hmq : ((A % B : ℕ) : ℚ) < B := by exact_mod_cast hmod
  have hfl : ⌊(A : ℚ) / B⌋ = ((A / B : ℕ) : Int) := by
    rw [Int.floor_eq_iff]
    constructor
    · rw [le_div_iff hBpos]
      push_cast
      exact_mod_cast Nat.div_mul_le_self A B
    · rw [div_lt_iff hBpos, Int.cast_natCast]
      nlinarith [hAq, hmq]
  have hfrac : (A : ℚ) / B - ⌊(A : ℚ) / B⌋ = (A % B : ℕ) / B := by
    rw [hfl, Int.cast_natCast]
    rw [eq_div_iff hB0, sub_mul, div_mul_cancel₀ _ hB0]
    linarith [hAq]
  have hlt : ((A % B : ℕ) : ℚ) / B < 1 / 2 ↔ 2 * (A % B) < B := by
    rw [div_lt_div_iff hBpos (by norm_num : (0 : ℚ) < 2)]
    have hc : ((A % B : ℕ) : ℚ) * 2 = ((2 * (A % B) : ℕ) : ℚ) := by push_cast; ring
    rw [hc, one_mul, Nat.cast_lt]
  have hgt : 1 / 2 < ((A % B : ℕ) : ℚ) / B ↔ B < 2 * (A % B) := by
    rw [div_lt_div_iff (by norm_num : (0 : ℚ) < 2) hBpos]
    have hc : ((A % B : ℕ) : ℚ) * 2 = ((2 * (A % B) : ℕ) : ℚ) := by push_cast; ring
    rw [hc, one_mul, Nat.cast_lt]
  have hshow : (rheDiv A B : Int) =
      ((if B < 2 * (A % B) then A / B + 1 else if 2 * (A % B) < B then A / B else A / B + A / B % 2 : ℕ) : Int) := rfl
  rw [hshow]
  unfold rheQ
  rw [hfrac, hfl]
  rcases Nat.lt_trichotomy (2 * (A % B)) B with hc | hc | hc
  · rw [if_neg (show ¬ B < 2 * (A % B) by omega), if_pos hc, if_pos (hlt.2 hc)]
  · rw [if_neg (show ¬ B < 2 * (A % B) by omega), if_neg (show ¬ 2 * (A % B) < B by omega),
      if_neg (show ¬ ((A % B : ℕ) : ℚ) / B < 1 / 2 from fun h => absurd (hlt.1 h) (by omega)),
      if_neg (show ¬ 1 / 2 < ((A % B : ℕ) : ℚ) / B from fun h => absurd (hgt.1 h) (by omega))]
    push_cast
    ring
  · rw [if_pos hc, if_neg (show ¬ ((A % B : ℕ) : ℚ) / B < 1 / 2 from fun h => absurd (hlt.1 h) (by omega)),
      if_pos (hgt.2 hc)]
    push_cast
    ring

/-! ## Correctness of `flN` -/

theorem flE_bracket (a b : Nat) (ha : 1 ≤ a) (ha2 : a < 2 ^ 1024) (hb : 1 ≤ b) (hb2 : b < 2 ^ 1024) :
    (2 : ℚ) ^ flE a b ≤ (a : ℚ) / b ∧ (a : ℚ) / b < 2 ^ (flE a b + 1) := by
  have hbq : (0 : ℚ) < b := by exact_mod_cast hb
  have h2pos : (0 : ℚ) < 2 := by norm_num
  have h2ne : (2 : ℚ) ≠ 0 := by norm_num
  obtain ⟨hla1, hla2⟩ := log2f_spec a ha ha2
  obtain ⟨hlb1, hlb2⟩ := log2f_spec b hb hb2
  have p1 : (2 : ℚ) ^ (log2f a : Int) ≤ a := by
    rw [zpow_natCast]; exact_mod_cast hla1
  have p2 : (a : ℚ) < 2 ^ ((log2f a : Int) + 1) := by
    have h : (log2f a : Int) + 1 = ((log2f a + 1 : ℕ) : Int) := by push_cast; ring
    rw [h, zpow_natCast]; exact_mod_cast hla2
  have p3 : (2 : ℚ) ^ (log2f b : Int) ≤ b := by
    rw [zpow_natCast]; exact_mod_cast hlb1
  have p4 : (b : ℚ) < 2 ^ ((log2f b : Int) + 1) := by
    have h : (log2f b : Int) + 1 = ((log2f b + 1 : ℕ) : Int) := by push_cast; ring
    rw [h, zpow_natCast]; exact_mod_cast hlb2
  set e0 : Int := (log2f a : Int) - (log2f b : Int) with he0
  have hub : (a : ℚ) / b < 2 ^ (e0 + 1) := by
    rw [div_lt_iff hbq]
    calc (a : ℚ) < 2 ^ ((log2f a : Int) + 1) := p2
      _ = 2 ^ (e0 + 1) * 2 ^ (log2f b : Int) := by
          have hexp1 : (log2f a : Int) + 1 = (e0 + 1) + (log2f b : Int) := by omega
          rw [hexp1, zpow_add₀ h2ne]
      _ ≤ 2 ^ (e0 + 1) * b := by
          exact mul_le_mul_of_nonneg_left p3 (zpow_nonneg (le_of_lt h2pos) _)
  have hlow : 2 ^ (e0 - 1) < (a : ℚ) / b := by
    rw [lt_div_iff hbq]
    calc (2 : ℚ) ^ (e0 - 1) * b < 2 ^ (e0 - 1) * 2 ^ ((log2f b : Int) + 1) := by
          exact mul_lt_mul_of_pos_left p4 (zpow_pos h2pos _)
      _ = 2 ^ (log2f a : Int) := by
          rw [← zpow_add₀ h2ne]
          have hexp2 : e0 - 1 + ((log2f b : Int) + 1) = (log2f a : Int) := by omega
          rw [hexp2]
      _ ≤ a := p1
  have hchar : (if 0 ≤ e0 then decide (2 ^ e0.toNat * b ≤ a) else decide (b ≤ a * 2 ^ (-e0).toNat)) = true ↔
      (2 : ℚ) ^ e0 ≤ (a : ℚ) / b := by
    by_cases hsgn : 0 ≤ e0
    · rw [if_pos hsgn, decide_eq_true_iff, le_div_iff hbq]
      have hcast : (2 : ℚ) ^ e0 * b = ((2 ^ e0.toNat * b : ℕ) : ℚ) := by
        push_cast
        rw [← zpow_natCast (2 : ℚ) e0.toNat, Int.toNat_of_nonneg hsgn]
      rw [hcast]
      exact ⟨fun h => by exact_mod_cast h, fun h => by exact_mod_cast h⟩
    · rw [if_neg hsgn, decide_eq_true_iff, le_div_iff hbq]
      have hneg : 0 ≤ -e0 := by omega
      have hpow : (2 : ℚ) ^ ((-e0).toNat) = 2 ^ (-e0) := by
        rw [← zpow_natCast (2 : ℚ) (-e0).toNat, Int.toNat_of_nonneg hneg]
      have hprod : (2 : ℚ) ^ e0 * 2 ^ (-e0) = 1 := by
        rw [← zpow_add₀ h2ne]
        simp
      have hpos : (0 : ℚ) < 2 ^ (-e0) := zpow_pos h2pos _
      constructor
      · intro h
        have hq : (b : ℚ) ≤ a * 2 ^ ((-e0).toNat) := by exact_mod_cast h
        rw [hpow] at hq
        calc (2 : ℚ) ^ e0 * b ≤ 2 ^ e0 * (a * 2 ^ (-e0)) := by
              exact mul_le_mul_of_nonneg_left hq (zpow_nonneg (le_of_lt h2pos) _)
          _ = a * (2 ^ e0 * 2 ^ (-e0)) := by ring
          _ = a := by rw [hprod, mul_one]
      · intro h
        have hq : (b : ℚ) ≤ a * 2 ^ (-e0) := by
          have h2 : (2 : ℚ) ^ e0 * b * 2 ^ (-e0) ≤ a * 2 ^ (-e0) :=
            mul_le_mul_of_nonneg_right h (le_of_lt hpos)
          calc (b : ℚ) = 2 ^ e0 * b * 2 ^ (-e0) := by
                rw [mul_comm ((2:ℚ) ^ e0) (b : ℚ), mul_assoc, hprod, mul_one]
            _ ≤ a * 2 ^ (-e0) := h2
        rw [← hpow] at hq
        exact_mod_cast hq
  unfold flE
  rw [← he0]
  by_cases hok : (if 0 ≤ e0 then decide (2 ^ e0.toNat * b ≤ a) else decide (b ≤ a * 2 ^ (-e0).toNat)) = true
  · rw [if_pos hok]
    exact ⟨hchar.1 hok, hub⟩
  · rw [if_neg hok]
    have hnle : ¬ (2 : ℚ) ^ e0 ≤ (a : ℚ) / b := fun h => hok (hchar.2 h)
    constructor
    · exact le_of_lt hlow
    · have : e0 - 1 + 1 = e0 := by ring
      rw [this]
      exact lt_of_not_le hnle

theorem flM_eq (a b : Nat) (hb : 1 ≤ b) :
    (flM a b : Int) = rheQ ((a : ℚ) / b * 2 ^ (52 - flE a b)) := by
  have hbq : (0 : ℚ) < b := by exact_mod_cast hb
  have h2ne : (2 : ℚ) ≠ 0 := by norm_num
  unfold flM
  set sh : Int := 52 - flE a b with hsh
  by_cases hs : 0 ≤ sh
  · rw [if_pos hs, rheDiv_eq_rheQ _ _ hb]
    have hcast : ((2 ^ sh.toNat : ℕ) : ℚ) = 2 ^ sh := by
      push_cast
      rw [← zpow_natCast (2 : ℚ) sh.toNat, Int.toNat_of_nonneg hs]
    have harg : ((a * 2 ^ sh.toNat : ℕ) : ℚ) / b = (a : ℚ) / b * 2 ^ sh := by
      rw [Nat.cast_mul, hcast]
      ring
    rw [harg]
  · have hBpos : 0 < b * 2 ^ (-sh).toNat := Nat.mul_pos hb (Nat.pos_pow_of_pos _ (by norm_num))
    rw [if_neg hs, rheDiv_eq_rheQ _ _ hBpos]
    have hneg : 0 ≤ -sh := by omega
    have hcast : ((2 ^ (-sh).toNat : ℕ) : ℚ) = 2 ^ (-sh) := by
      push_cast
      rw [← zpow_natCast (2 : ℚ) (-sh).toNat, Int.toNat_of_nonneg hneg]
    have hprod : (2 : ℚ) ^ sh * 2 ^ (-sh) = 1 := by
      rw [← zpow_add₀ h2ne]
      simp
    have hne2 : ((2 : ℚ) ^ (-sh)) ≠ 0 := by
      have : (0 : ℚ) < 2 ^ (-sh) := zpow_pos (by norm_num) _
      exact ne_of_gt this
    have harg : (a : ℚ) / ((b * 2 ^ (-sh).toNat : ℕ) : ℚ) = (a : ℚ) / b * 2 ^ sh := by
      rw [Nat.cast_mul, hcast, div_mul_eq_div_div, div_eq_mul_inv ((a : ℚ) / b) _,
        zpow_neg, inv_inv]
    rw [harg]

theorem flN_eq_of_ne (a b : Nat) (ha : a ≠ 0) : flN a b = (flM a b, flE a b - 52) := by
  unfold flN
  exact if_neg ha

theorem flN_spec (a b : Nat) (ha : 1 ≤ a) (hb : 1 ≤ b) :
    (flN a b).2 = flE a b - 52 ∧ ((flN a b).1 : Int) = rheQ ((a : ℚ) / b * 2 ^ (52 - flE a b)) := by
  have hne : a ≠ 0 := by omega
  have h := flN_eq_of_ne a b hne
  refine ⟨by rw [h], ?_⟩
  simp only [h]
  exact flM_eq a b hb

theorem dval_nonneg (x : Nat × Int) : 0 ≤ dval x := by
  unfold dval
  positivity

theorem flN_all (a b : Nat) (ha : 1 ≤ a) (ha2 : a < 2 ^ 1024) (hb : 1 ≤ b) (hb2 : b < 2 ^ 1024) :
    |dval (flN a b) - (a : ℚ) / b| ≤ ((a : ℚ) / b) * (2 ^ (52 : ℤ))⁻¹ ∧
      (flN a b).1 ≤ 2 ^ 53 ∧
      (2 : ℚ) ^ flE a b ≤ dval (flN a b) ∧ dval (flN a b) ≤ 2 ^ (flE a b + 1) := by
  have h2pos : (0 : ℚ) < 2 := by norm_num
  have h2ne : (2 : ℚ) ≠ 0 := by norm_num
  obtain ⟨hbr1, hbr2⟩ := flE_bracket a b ha ha2 hb hb2
  obtain ⟨hsnd, hfst⟩ := flN_spec a b ha hb
  set e := flE a b with he
  set v : ℚ := (a : ℚ) / b with hv
  have hvpos : 0 < v := by
    rw [hv]
    have haq : (0 : ℚ) < a := by exact_mod_cast ha
    have hbq : (0 : ℚ) < b := by exact_mod_cast hb
    positivity
  set X : ℚ := v * 2 ^ ((52 : ℤ) - e) with hX
  have hX52 : (2 : ℚ) ^ (52 : ℤ) ≤ X := by
    have hexp : e + (52 - e) = (52 : ℤ) := by ring
    calc (2 : ℚ) ^ (52 : ℤ) = 2 ^ e * 2 ^ ((52 : ℤ) - e) := by
          rw [← zpow_add₀ h2ne, hexp]
      _ ≤ v * 2 ^ ((52 : ℤ) - e) :=
          mul_le_mul_of_nonneg_right hbr1 (zpow_nonneg (le_of_lt h2pos) _)
  have hX53 : X < 2 ^ (53 : ℤ) := by
    have hexp : e + 1 + (52 - e) = (53 : ℤ) := by ring
    calc X < 2 ^ (e + 1) * 2 ^ ((52 : ℤ) - e) :=
          mul_lt_mul_of_pos_right hbr2 (zpow_pos h2pos _)
      _ = 2 ^ (53 : ℤ) := by rw [← zpow_add₀ h2ne, hexp]
  have hXpos : 0 < X := lt_of_lt_of_le (zpow_pos h2pos _) hX52
  have hfst' : (((flN a b).1 : ℕ) : ℚ) = ((rheQ X : Int) : ℚ) := by exact_mod_cast hfst
  have hdv : dval (flN a b) = ((rheQ X : Int) : ℚ) * 2 ^ (e - 52) := by
    unfold dval
    rw [hfst', hsnd]
  have hveq : v = X * 2 ^ (e - 52) := by
    rw [hX, mul_assoc, ← zpow_add₀ h2ne]
    have hexp : (52 : ℤ) - e + (e - 52) = 0 := by ring
    rw [hexp, zpow_zero, mul_one]
  have hmant : (flN a b).1 ≤ 2 ^ 53 := by
    have hfloorlt : (⌊X⌋ : ℤ) < 2 ^ 53 := by
      have : X < ((2 ^ 53 : ℤ) : ℚ) := by exact_mod_cast hX53
      exact Int.floor_lt.2 this
    have h1 : ((flN a b).1 : ℤ) ≤ 2 ^ 53 := by
      rw [hfst]
      have := rheQ_ge X
      omega
    exact_mod_cast h1
  have hm52 : (2 ^ 52 : ℤ) ≤ rheQ X := by
    have hfl52 : (2 ^ 52 : ℤ) ≤ ⌊X⌋ := by
      apply Int.le_floor.2
      exact_mod_cast hX52
    have := rheQ_le X
    omega
  constructor
  · have hstep : |dval (flN a b) - v| = |((rheQ X : Int) : ℚ) - X| * 2 ^ (e - 52) := by
      rw [hdv, hveq, ← sub_mul, abs_mul, abs_of_pos (zpow_pos h2pos (e - 52))]
    rw [hstep]
    have h1 : |((rheQ X : Int) : ℚ) - X| * 2 ^ (e - 52) ≤ 1 / 2 * 2 ^ (e - 52) :=
      mul_le_mul_of_nonneg_right (rheQ_abs X) (le_of_lt (zpow_pos h2pos _))
    have h2 : (1 : ℚ) / 2 * 2 ^ (e - 52) ≤ 2 ^ (e - 52) := by
      have := zpow_pos h2pos (e - 52)
      linarith
    have h3 : (2 : ℚ) ^ (e - 52) ≤ v * (2 ^ (52 : ℤ))⁻¹ := by
      have hexp : e + -(52 : ℤ) = e - 52 := by ring
      calc (2 : ℚ) ^ (e - 52) = 2 ^ e * 2 ^ (-(52 : ℤ)) := by
            rw [← zpow_add₀ h2ne, hexp]
        _ ≤ v * 2 ^ (-(52 : ℤ)) :=
            mul_le_mul_of_nonneg_right hbr1 (zpow_nonneg (le_of_lt h2pos) _)
        _ = v * (2 ^ (52 : ℤ))⁻¹ := by rw [zpow_neg]
    linarith
  refine ⟨hmant, ?_, ?_⟩
  · rw [hdv]
    have hexp : (52 : ℤ) + (e - 52) = e := by ring
    calc (2 : ℚ) ^ e = 2 ^ (52 : ℤ) * 2 ^ (e - 52) := by rw [← zpow_add₀ h2ne, hexp]
      _ ≤ ((rheQ X : Int) : ℚ) * 2 ^ (e - 52) := by
          apply mul_le_mul_of_nonneg_right _ (le_of_lt (zpow_pos h2pos _))
          have : ((2 ^ 52 : ℤ) : ℚ) ≤ ((rheQ X : Int) : ℚ) := by exact_mod_cast hm52
          calc (2 : ℚ) ^ (52 : ℤ) = ((2 ^ 52 : ℤ) : ℚ) := by norm_num
            _ ≤ _ := this
  · rw [hdv]
    have hexp : (53 : ℤ) + (e - 52) = e + 1 := by ring
    have hrle : ((rheQ X : Int) : ℚ) ≤ 2 ^ (53 : ℤ) := by
      have h1 : rheQ X ≤ 2 ^ 53 := by
        have hfloorlt : (⌊X⌋ : ℤ) < 2 ^ 53 := by
          have : X < ((2 ^ 53 : ℤ) : ℚ) := by exact_mod_cast hX53
          exact Int.floor_lt.2 this
        have := rheQ_ge X
        omega
      calc ((rheQ X : Int) : ℚ) ≤ ((2 ^ 53 : ℤ) : ℚ) := by exact_mod_cast h1
        _ = 2 ^ (53 : ℤ) := by norm_num
    calc ((rheQ X : Int) : ℚ) * 2 ^ (e - 52) ≤ 2 ^ (53 : ℤ) * 2 ^ (e - 52) :=
          mul_le_mul_of_nonneg_right hrle (le_of_lt (zpow_pos h2pos _))
      _ = 2 ^ (e + 1) := by rw [← zpow_add₀ h2ne, hexp]

/-! ## Correctness of `flD`, `addF` and `pyRound` -/

theorem flD_all (m : Nat) (t : Int) (hm : m < 2 ^ 960) (ht1 : -901 ≤ t) (ht2 : t ≤ 0)
    (hv : (m : ℚ) * 2 ^ t ≤ 2 ^ (40 : ℤ)) :
    (flD m t).1 ≤ 2 ^ 53 ∧ t - 52 ≤ (flD m t).2 ∧ (flD m t).2 ≤ 0 ∧
      |dval (flD m t) - (m : ℚ) * 2 ^ t| ≤ ((m : ℚ) * 2 ^ t) * (2 ^ (52 : ℤ))⁻¹ := by
  have h2pos : (0 : ℚ) < 2 := by norm_num
  have h2one : (1 : ℚ) < 2 := by norm_num
  by_cases hm0 : m = 0
  · subst hm0
    have hfl : flD 0 t = (0, 0) := by unfold flD; simp
    rw [hfl]
    refine ⟨by norm_num, by omega, by norm_num, ?_⟩
    unfold dval
    simp
  · have hm1 : 1 ≤ m := by omega
    have hfl : flD m t = flN m (2 ^ (-t).toNat) := by
      unfold flD
      rw [if_neg hm0]
      by_cases ht0 : t = 0
      · subst ht0
        rw [if_pos (le_refl (0 : Int))]
        norm_num
      · rw [if_neg (by omega : ¬ 0 ≤ t)]
    set b : Nat := 2 ^ (-t).toNat with hbdef
    have hb1 : 1 ≤ b := Nat.pos_pow_of_pos _ (by norm_num)
    have hb2 : b < 2 ^ 1024 := by
      rw [hbdef]
      have hle : (-t).toNat ≤ 901 := by omega
      calc 2 ^ (-t).toNat ≤ 2 ^ 901 := Nat.pow_le_pow_right (by norm_num) hle
        _ < 2 ^ 1024 := Nat.pow_lt_pow_right (by norm_num) (by norm_num)
    have hm2 : m < 2 ^ 1024 := lt_trans hm (Nat.pow_lt_pow_right (by norm_num) (by norm_num))
    have hcast : ((b : ℕ) : ℚ) = 2 ^ (-t : ℤ) := by
      rw [hbdef]
      push_cast
      rw [← zpow_natCast (2 : ℚ) (-t).toNat, Int.toNat_of_nonneg (by omega : 0 ≤ -t)]
    have hval : (m : ℚ) / b = (m : ℚ) * 2 ^ t := by
      rw [hcast, div_eq_mul_inv, zpow_neg, inv_inv]
    obtain ⟨herr, hmant, -, -⟩ := flN_all m b hm1 hm2 hb1 hb2
    rw [hval] at herr
    obtain ⟨hsnd, -⟩ := flN_spec m b hm1 hb1
    obtain ⟨hbr1, hbr2⟩ := flE_bracket m b hm1 hm2 hb1 hb2
    rw [hval] at hbr1 hbr2
    have hEub : flE m b ≤ 40 := (zpow_le_zpow_iff_right₀ h2one).1 (le_trans hbr1 hv)
    have hElb : t ≤ flE m b := by
      have hmge : (1 : ℚ) ≤ (m : ℚ) := by exact_mod_cast hm1
      have h1 : (2 : ℚ) ^ t ≤ (m : ℚ) * 2 ^ t := by
        have h2t : (0 : ℚ) < 2 ^ t := zpow_pos h2pos _
        exact le_mul_of_one_le_left (le_of_lt h2t) hmge
      have h2 : (2 : ℚ) ^ t < 2 ^ (flE m b + 1) := lt_of_le_of_lt h1 hbr2
      have h3 : t < flE m b + 1 := (zpow_lt_zpow_iff_right₀ h2one).1 h2
      omega
    refine ⟨?_, ?_, ?_, ?_⟩
    · rw [hfl]
      exact hmant
    · rw [hfl, hsnd]
      omega
    · rw [hfl, hsnd]
      omega
    · rw [hfl]
      exact herr

theorem addF_exact (x y : Nat × Int) :
    ((x.1 * 2 ^ (x.2 - min x.2 y.2).toNat + y.1 * 2 ^ (y.2 - min x.2 y.2).toNat : ℕ) : ℚ) *
      2 ^ (min x.2 y.2) = dval x + dval y := by
  have h2ne : (2 : ℚ) ≠ 0 := by norm_num
  set t := min x.2 y.2 with ht
  have hx : 0 ≤ x.2 - t := by omega
  have hy : 0 ≤ y.2 - t := by omega
  have hcx : ((2 ^ (x.2 - t).toNat : ℕ) : ℚ) = 2 ^ (x.2 - t) := by
    push_cast
    rw [← zpow_natCast (2 : ℚ) (x.2 - t).toNat, Int.toNat_of_nonneg hx]
  have hcy : ((2 ^ (y.2 - t).toNat : ℕ) : ℚ) = 2 ^ (y.2 - t) := by
    push_cast
    rw [← zpow_natCast (2 : ℚ) (y.2 - t).toNat, Int.toNat_of_nonneg hy]
  have hex : x.2 - t + t = x.2 := by ring
  have hey : y.2 - t + t = y.2 := by ring
  unfold dval
  rw [Nat.cast_add, Nat.cast_mul, Nat.cast_mul, hcx, hcy, add_mul, mul_assoc, mul_assoc,
    ← zpow_add₀ h2ne, ← zpow_add₀ h2ne, hex, hey]

theorem addF_good (x y : Nat × Int) (L : Int) (hL : -849 ≤ L)
    (hmx : x.1 ≤ 2 ^ 53) (hex1 : L ≤ x.2) (hex2 : x.2 ≤ 0)
    (hmy : y.1 ≤ 2 ^ 53) (hey1 : L ≤ y.2) (hey2 : y.2 ≤ 0)
    (hhi : dval x + dval y ≤ 2 ^ (40 : ℤ)) :
    (addF x y).1 ≤ 2 ^ 53 ∧ L - 52 ≤ (addF x y).2 ∧ (addF x y).2 ≤ 0 ∧
      |dval (addF x y) - (dval x + dval y)| ≤ (dval x + dval y) * (2 ^ (52 : ℤ))⁻¹ := by
  set t := min x.2 y.2 with ht
  set M : Nat := x.1 * 2 ^ (x.2 - t).toNat + y.1 * 2 ^ (y.2 - t).toNat with hM
  have haddF : addF x y = flD M t := rfl
  have hMv : (M : ℚ) * 2 ^ t = dval x + dval y := addF_exact x y
  have hMsize : M < 2 ^ 960 := by
    have hxs : (x.2 - t).toNat ≤ 849 := by omega
    have hys : (y.2 - t).toNat ≤ 849 := by omega
    have h1 : x.1 * 2 ^ (x.2 - t).toNat ≤ 2 ^ 53 * 2 ^ 849 :=
      Nat.mul_le_mul hmx (Nat.pow_le_pow_right (by norm_num) hxs)
    have h2 : y.1 * 2 ^ (y.2 - t).toNat ≤ 2 ^ 53 * 2 ^ 849 :=
      Nat.mul_le_mul hmy (Nat.pow_le_pow_right (by norm_num) hys)
    have h3 : (2 : Nat) ^ 53 * 2 ^ 849 + 2 ^ 53 * 2 ^ 849 < 2 ^ 960 := by
      have he : (2 : Nat) ^ 53 * 2 ^ 849 + 2 ^ 53 * 2 ^ 849 = 2 ^ 903 := by ring
      rw [he]
      exact Nat.pow_lt_pow_right (by norm_num) (by norm_num)
    omega
  have ht1 : -901 ≤ t := by omega
  have ht2 : t ≤ 0 := by omega
  have hhiM : (M : ℚ) * 2 ^ t ≤ 2 ^ (40 : ℤ) := by rw [hMv]; exact hhi
  obtain ⟨g1, g2, g3, g4⟩ := flD_all M t hMsize ht1 ht2 hhiM
  rw [hMv] at g4
  rw [haddF]
  exact ⟨g1, by omega, g3, g4⟩

/-- Python's `round` of a double is round-half-even of its exact value. -/
theorem pyRound_eq (x : Nat × Int) : (pyRound x : Int) = rheQ (dval x) := by
  unfold pyRound
  by_cases ht : 0 ≤ x.2
  · rw [if_pos ht]
    have hdv : dval x = ((x.1 * 2 ^ x.2.toNat : ℕ) : ℚ) := by
      unfold dval
      push_cast
      rw [← zpow_natCast (2 : ℚ) x.2.toNat, Int.toNat_of_nonneg ht]
    rw [hdv]
    have hz : ((x.1 * 2 ^ x.2.toNat : ℕ) : ℚ) = (((x.1 * 2 ^ x.2.toNat : ℕ) : ℤ) : ℚ) := by
      push_cast
      ring
    rw [hz]
    have hint : rheQ (((x.1 * 2 ^ x.2.toNat : ℕ) : ℤ) : ℚ) = ((x.1 * 2 ^ x.2.toNat : ℕ) : ℤ) := by
      unfold rheQ
      rw [Int.floor_intCast]
      rw [if_pos (by norm_num)]
    rw [hint]
  · rw [if_neg ht]
    have hb : 0 < 2 ^ (-x.2).toNat := Nat.pos_pow_of_pos _ (by norm_num)
    rw [rheDiv_eq_rheQ _ _ hb]
    have harg : ((x.1 : ℕ) : ℚ) / ((2 ^ (-x.2).toNat : ℕ) : ℚ) = dval x := by
      have hcast : ((2 ^ (-x.2).toNat : ℕ) : ℚ) = 2 ^ (-x.2 : ℤ) := by
        push_cast
        rw [← zpow_natCast (2 : ℚ) (-x.2).toNat, Int.toNat_of_nonneg (by omega : 0 ≤ -x.2)]
      rw [hcast]
      unfold dval
      rw [div_eq_mul_inv, zpow_neg, inv_inv]
    rw [harg]

/-! ## The composite-score chain -/

theorem prodW_spec (s : Nat) (w : Nat × Int) (r : ℚ) (hs : s ≤ 100)
    (hwm : w.1 ≤ 2 ^ 53) (hw2a : -56 ≤ w.2) (hw2b : w.2 ≤ -2)
    (hWr : |dval w - r| ≤ r * (2 ^ (52 : ℤ))⁻¹)
    (hrpos : 0 < r) (hrhi : r ≤ 1 / 4) :
    (prodW s w).1 ≤ 2 ^ 53 ∧ (-108 : ℤ) ≤ (prodW s w).2 ∧ (prodW s w).2 ≤ 0 ∧
      |dval (prodW s w) - (s : ℚ) * r| ≤ (2 : ℚ) ^ (-44 : ℤ) := by
  have hq52 : (0 : ℚ) < (2 : ℚ) ^ (52 : ℤ) := zpow_pos (by norm_num) _
  have hWhi : dval w ≤ 1 / 2 := by
    have h1 : dval w - r ≤ r * (2 ^ (52 : ℤ))⁻¹ := le_of_abs_le hWr
    have h2 : r * (2 ^ (52 : ℤ))⁻¹ ≤ r := by
      have hinv : (2 ^ (52 : ℤ))⁻¹ ≤ (1 : ℚ) := by norm_num
      exact mul_le_of_le_one_right (le_of_lt hrpos) hinv
    linarith
  have hWnn : 0 ≤ dval w := dval_nonneg w
  have hprod : prodW s w = flD (s * w.1) w.2 := rfl
  have hv0 : ((s * w.1 : ℕ) : ℚ) * 2 ^ w.2 = (s : ℚ) * dval w := by
    unfold dval
    push_cast
    ring
  have hsq : (s : ℚ) ≤ 100 := by exact_mod_cast hs
  have hsnn : (0 : ℚ) ≤ (s : ℚ) := by positivity
  have hm : s * w.1 < 2 ^ 960 := by
    have h1 : s * w.1 ≤ 100 * 2 ^ 53 := Nat.mul_le_mul hs hwm
    have h2 : (100 : ℕ) * 2 ^ 53 < 2 ^ 960 := by norm_num
    omega
  have hvhi : ((s * w.1 : ℕ) : ℚ) * 2 ^ w.2 ≤ 2 ^ (40 : ℤ) := by
    rw [hv0]
    have h1 : (s : ℚ) * dval w ≤ 100 * (1 / 2) :=
      mul_le_mul hsq hWhi hWnn (by norm_num)
    have h2 : (100 : ℚ) * (1 / 2) ≤ 2 ^ (40 : ℤ) := by norm_num
    linarith
  obtain ⟨g1, g2, g3, g4⟩ := flD_all (s * w.1) w.2 hm (by omega) (by omega) hvhi
  rw [hv0] at g4
  rw [hprod]
  refine ⟨g1, by omega, g3, ?_⟩
  have herr2 : |(s : ℚ) * dval w - (s : ℚ) * r| ≤ 100 * (r * (2 ^ (52 : ℤ))⁻¹) := by
    have h1 : |(s : ℚ) * dval w - (s : ℚ) * r| = (s : ℚ) * |dval w - r| := by
      rw [← mul_sub, abs_mul, abs_of_nonneg hsnn]
    rw [h1]
    have h2 : (s : ℚ) * |dval w - r| ≤ 100 * |dval w - r| :=
      mul_le_mul_of_nonneg_right hsq (abs_nonneg _)
    have h3 : (100 : ℚ) * |dval w - r| ≤ 100 * (r * (2 ^ (52 : ℤ))⁻¹) :=
      mul_le_mul_of_nonneg_left hWr (by norm_num)
    linarith
  have herr1 : |dval (flD (s * w.1) w.2) - (s : ℚ) * dval w| ≤ 50 * (2 ^ (52 : ℤ))⁻¹ := by
    have hb : (s : ℚ) * dval w ≤ 50 := by
      have := mul_le_mul hsq hWhi hWnn (by norm_num : (0:ℚ) ≤ 100)
      linarith
    have hbn : 0 ≤ (s : ℚ) * dval w := by positivity
    calc |dval (flD (s * w.1) w.2) - (s : ℚ) * dval w| ≤ ((s : ℚ) * dval w) * (2 ^ (52 : ℤ))⁻¹ :=
          g4
      _ ≤ 50 * (2 ^ (52 : ℤ))⁻¹ := by
          apply mul_le_mul_of_nonneg_right hb
          positivity
  calc |dval (flD (s * w.1) w.2) - (s : ℚ) * r|
      ≤ |dval (flD (s * w.1) w.2) - (s : ℚ) * dval w| + |(s : ℚ) * dval w - (s : ℚ) * r| := by
        have := abs_sub_abs_le_abs_sub (dval (flD (s * w.1) w.2) - (s : ℚ) * dval w) 0
        exact abs_sub_le _ _ _
    _ ≤ 50 * (2 ^ (52 : ℤ))⁻¹ + 100 * (r * (2 ^ (52 : ℤ))⁻¹) := add_le_add herr1 herr2
    _ ≤ (2 : ℚ) ^ (-44 : ℤ) := by
        have hr4 : r ≤ 1 / 4 := hrhi
        have h1 : 100 * (r * (2 ^ (52 : ℤ))⁻¹) ≤ 25 * (2 ^ (52 : ℤ))⁻¹ := by
          have hi : (0:ℚ) ≤ (2 ^ (52 : ℤ))⁻¹ := by positivity
          calc 100 * (r * (2 ^ (52 : ℤ))⁻¹) = (100 * r) * (2 ^ (52 : ℤ))⁻¹ := by ring
            _ ≤ 25 * (2 ^ (52 : ℤ))⁻¹ := mul_le_mul_of_nonneg_right (by linarith) hi
        have h2 : (50 : ℚ) * (2 ^ (52 : ℤ))⁻¹ + 25 * (2 ^ (52 : ℤ))⁻¹ = 75 * (2 ^ (52 : ℤ))⁻¹ := by ring
        have h3 : (75 : ℚ) * (2 ^ (52 : ℤ))⁻¹ ≤ 2 ^ (-44 : ℤ) := by norm_num
        linarith

theorem chain_step (acc p : Nat × Int) (T R E : ℚ) (L : Int) (hL : -797 ≤ L)
    (hma : acc.1 ≤ 2 ^ 53) (hea1 : L ≤ acc.2) (hea2 : acc.2 ≤ 0)
    (hmp : p.1 ≤ 2 ^ 53) (hep1 : (-108 : ℤ) ≤ p.2) (hep2 : p.2 ≤ 0)
    (herr : |dval acc - T| ≤ E) (hperr : |dval p - R| ≤ (2 : ℚ) ^ (-44 : ℤ))
    (hT1 : 0 ≤ T) (hT2 : T ≤ 100) (hR1 : 0 ≤ R) (hR2 : R ≤ 25) (hE : 0 ≤ E) (hE2 : E ≤ 1) :
    (addF acc p).1 ≤ 2 ^ 53 ∧ min L (-108) - 52 ≤ (addF acc p).2 ∧ (addF acc p).2 ≤ 0 ∧
      |dval (addF acc p) - (T + R)| ≤ E + 2 * (2 : ℚ) ^ (-44 : ℤ) := by
  have hsmall : (0 : ℚ) < (2 : ℚ) ^ (-44 : ℤ) := zpow_pos (by norm_num) _
  have hsmall2 : (2 : ℚ) ^ (-44 : ℤ) ≤ 1 := by norm_num
  have hacchi : dval acc ≤ T + E := by
    have := le_of_abs_le herr
    linarith
  have hphi : dval p ≤ R + 2 ^ (-44 : ℤ) := by
    have := le_of_abs_le hperr
    linarith
  have hsumhi : dval acc + dval p ≤ 2 ^ (40 : ℤ) := by
    have h9 : ((2 : ℚ) ^ (40 : ℤ)) = 1099511627776 := by norm_num
    rw [h9]
    linarith
  obtain ⟨g1, g2, g3, g4⟩ := addF_good acc p (min L (-108)) (by omega)
    hma (by omega) hea2 hmp (by omega) hep2 hsumhi
  refine ⟨g1, g2, g3, ?_⟩
  have hsumnn : 0 ≤ dval acc + dval p := by
    have := dval_nonneg acc
    have := dval_nonneg p
    linarith
  have hstep : (dval acc + dval p) * (2 ^ (52 : ℤ))⁻¹ ≤ (2 : ℚ) ^ (-44 : ℤ) := by
    have h1 : dval acc + dval p ≤ 128 := by linarith
    have h2 : (dval acc + dval p) * (2 ^ (52 : ℤ))⁻¹ ≤ 128 * (2 ^ (52 : ℤ))⁻¹ := by
      apply mul_le_mul_of_nonneg_right h1
      positivity
    have h3 : (128 : ℚ) * (2 ^ (52 : ℤ))⁻¹ ≤ 2 ^ (-44 : ℤ) := by norm_num
    linarith
  have htri : |dval (addF acc p) - (T + R)| ≤
      |dval (addF acc p) - (dval acc + dval p)| + |dval acc + dval p - (T + R)| := by
    have h := abs_sub_le (dval (addF acc p)) (dval acc + dval p) (T + R)
    exact h
  have hmid : |dval acc + dval p - (T + R)| ≤ E + 2 ^ (-44 : ℤ) := by
    have h1 : |dval acc + dval p - (T + R)| = |(dval acc - T) + (dval p - R)| := by
      congr 1
      ring
    rw [h1]
    calc |(dval acc - T) + (dval p - R)| ≤ |dval acc - T| + |dval p - R| := abs_add _ _
      _ ≤ E + 2 ^ (-44 : ℤ) := add_le_add herr hperr
  calc |dval (addF acc p) - (T + R)|
      ≤ |dval (addF acc p) - (dval acc + dval p)| + |dval acc + dval p - (T + R)| := htri
    _ ≤ (2 : ℚ) ^ (-44 : ℤ) + (E + 2 ^ (-44 : ℤ)) := add_le_add (le_trans g4 hstep) hmid
    _ = E + 2 * (2 : ℚ) ^ (-44 : ℤ) := by ring

theorem compF_err (s : CatScores)
    (hp : s.performance ≤ 100) (hs : s.seo ≤ 100) (ha : s.accessibility ≤ 100)
    (hm : s.mobile ≤ 100) (hl : s.ssl ≤ 100) (hq : s.meta_quality ≤ 100)
    (hd : s.load_speed ≤ 100) :
    |dval (compF s) - (weightSum s : ℚ) / 20| ≤ (2 : ℚ) ^ (-40 : ℤ) := by
  have f25 : |dval w25 - 1 / 4| ≤ 1 / 4 * (2 ^ (52 : ℤ))⁻¹ := by
    unfold dval w25
    rw [abs_le]
    constructor <;> norm_num
  have f20 : |dval w20 - 1 / 5| ≤ 1 / 5 * (2 ^ (52 : ℤ))⁻¹ := by
    unfold dval w20
    rw [abs_le]
    constructor <;> norm_num
  have f15 : |dval w15 - 3 / 20| ≤ 3 / 20 * (2 ^ (52 : ℤ))⁻¹ := by
    unfold dval w15
    rw [abs_le]
    constructor <;> norm_num
  have f10 : |dval w10 - 1 / 10| ≤ 1 / 10 * (2 ^ (52 : ℤ))⁻¹ := by
    unfold dval w10
    rw [abs_le]
    constructor <;> norm_num
  have f05 : |dval w05 - 1 / 20| ≤ 1 / 20 * (2 ^ (52 : ℤ))⁻¹ := by
    unfold dval w05
    rw [abs_le]
    constructor <;> norm_num
  obtain ⟨m1, e1a, e1b, er1⟩ := prodW_spec s.performance w25 (1 / 4) hp
    (by norm_num [w25]) (by norm_num [w25]) (by norm_num [w25]) f25 (by norm_num) (by norm_num)
  obtain ⟨m2, e2a, e2b, er2⟩ := prodW_spec s.seo w20 (1 / 5) hs
    (by norm_num [w20]) (by norm_num [w20]) (by norm_num [w20]) f20 (by norm_num) (by norm_num)
  obtain ⟨m3, e3a, e3b, er3⟩ := prodW_spec s.accessibility w15 (3 / 20) ha
    (by norm_num [w15]) (by norm_num [w15]) (by norm_num [w15]) f15 (by norm_num) (by norm_num)
  obtain ⟨m4, e4a, e4b, er4⟩ := prodW_spec s.mobile w15 (3 / 20) hm
    (by norm_num [w15]) (by norm_num [w15]) (by norm_num [w15]) f15 (by norm_num) (by norm_num)
  obtain ⟨m5, e5a, e5b, er5⟩ := prodW_spec s.ssl w10 (1 / 10) hl
    (by norm_num [w10]) (by norm_num [w10]) (by norm_num [w10]) f10 (by norm_num) (by norm_num)
  obtain ⟨m6, e6a, e6b, er6⟩ := prodW_spec s.meta_quality w10 (1 / 10) hq
    (by norm_num [w10]) (by norm_num [w10]) (by norm_num [w10]) f10 (by norm_num) (by norm_num)
  obtain ⟨m7, e7a, e7b, er7⟩ := prodW_spec s.load_speed w05 (1 / 20) hd
    (by norm_num [w05]) (by norm_num [w05]) (by norm_num [w05]) f05 (by norm_num) (by norm_num)
  have hpq : (s.performance : ℚ) ≤ 100 := by exact_mod_cast hp
  have hsq : (s.seo : ℚ) ≤ 100 := by exact_mod_cast hs
  have haq : (s.accessibility : ℚ) ≤ 100 := by exact_mod_cast ha
  have hmq : (s.mobile : ℚ) ≤ 100 := by exact_mod_cast hm
  have hlq : (s.ssl : ℚ) ≤ 100 := by exact_mod_cast hl
  have hqq : (s.meta_quality : ℚ) ≤ 100 := by exact_mod_cast hq
  have hdq : (s.load_speed : ℚ) ≤ 100 := by exact_mod_cast hd
  have h00 : dval (0, 0) = 0 := by
    unfold dval
    norm_num
  obtain ⟨M1, E1a, E1b, ER1⟩ := chain_step (0, 0) (prodW s.performance w25)
    0 ((s.performance : ℚ) * (1 / 4)) 0 0 (by norm_num)
    (by norm_num) (by norm_num) (by norm_num) m1 e1a e1b
    (by rw [h00]; norm_num) er1
    (le_refl 0) (by norm_num) (by positivity) (by linarith) (le_refl 0) (by norm_num)
  have E1a' : (-160 : ℤ) ≤ (addF (0, 0) (prodW s.performance w25)).2 := by omega
  obtain ⟨M2, E2a, E2b, ER2⟩ := chain_step (addF (0, 0) (prodW s.performance w25))
    (prodW s.seo w20)
    (0 + (s.performance : ℚ) * (1 / 4)) ((s.seo : ℚ) * (1 / 5))
    (0 + 2 * (2 : ℚ) ^ (-44 : ℤ)) (-160) (by norm_num)
    M1 E1a' E1b m2 e2a e2b ER1 er2
    (by positivity) (by linarith) (by positivity) (by linarith) (by positivity) (by norm_num)
  have E2a' : (-212 : ℤ) ≤ (addF (addF (0, 0) (prodW s.performance w25)) (prodW s.seo w20)).2 := by
    omega
  obtain ⟨M3, E3a, E3b, ER3⟩ := chain_step
    (addF (addF (0, 0) (prodW s.performance w25)) (prodW s.seo w20))
    (prodW s.accessibility w15)
    (0 + (s.performance : ℚ) * (1 / 4) + (s.seo : ℚ) * (1 / 5)) ((s.accessibility : ℚ) * (3 / 20))
    (0 + 2 * (2 : ℚ) ^ (-44 : ℤ) + 2 * (2 : ℚ) ^ (-44 : ℤ)) (-212) (by norm_num)
    M2 E2a' E2b m3 e3a e3b ER2 er3
    (by positivity) (by linarith) (by positivity) (by linarith) (by positivity) (by norm_num)
  have E3a' : (-264 : ℤ) ≤ (addF (addF (addF (0, 0) (prodW s.performance w25)) (prodW s.seo w20))
      (prodW s.accessibility w15)).2 := by omega
  obtain ⟨M4, E4a, E4b, ER4⟩ := chain_step
    (addF (addF (addF (0, 0) (prodW s.performance w25)) (prodW s.seo w20))
      (prodW s.accessibility w15))
    (prodW s.mobile w15)
    (0 + (s.performance : ℚ) * (1 / 4) + (s.seo : ℚ) * (1 / 5) + (s.accessibility : ℚ) * (3 / 20))
    ((s.mobile : ℚ) * (3 / 20))
    (0 + 2 * (2 : ℚ) ^ (-44 : ℤ) + 2 * (2 : ℚ) ^ (-44 : ℤ) + 2 * (2 : ℚ) ^ (-44 : ℤ))
    (-264) (by norm_num)
    M3 E3a' E3b m4 e4a e4b ER3 er4
    (by positivity) (by linarith) (by positivity) (by linarith) (by positivity) (by norm_num)
  have E4a' : (-316 : ℤ) ≤ (addF (addF (addF (addF (0, 0) (prodW s.performance w25))
      (prodW s.seo w20)) (prodW s.accessibility w15)) (prodW s.mobile w15)).2 := by omega
  obtain ⟨M5, E5a, E5b, ER5⟩ := chain_step
    (addF (addF (addF (addF (0, 0) (prodW s.performance w25)) (prodW s.seo w20))
      (prodW s.accessibility w15)) (prodW s.mobile w15))
    (prodW s.ssl w10)
    (0 + (s.performance : ℚ) * (1 / 4) + (s.seo : ℚ) * (1 / 5) + (s.accessibility : ℚ) * (3 / 20) +
      (s.mobile : ℚ) * (3 / 20))
    ((s.ssl : ℚ) * (1 / 10))
    (0 + 2 * (2 : ℚ) ^ (-44 : ℤ) + 2 * (2 : ℚ) ^ (-44 : ℤ) + 2 * (2 : ℚ) ^ (-44 : ℤ) +
      2 * (2 : ℚ) ^ (-44 : ℤ))
    (-316) (by norm_num)
    M4 E4a' E4b m5 e5a e5b ER4 er5
    (by positivity) (by linarith) (by positivity) (by linarith) (by positivity) (by norm_num)
  have E5a' : (-368 : ℤ) ≤ (addF (addF (addF (addF (addF (0, 0) (prodW s.performance w25))
      (prodW s.seo w20)) (prodW s.accessibility w15)) (prodW s.mobile w15)) (prodW s.ssl w10)).2 := by
    omega
  obtain ⟨M6, E6a, E6b, ER6⟩ := chain_step
    (addF (addF (addF (addF (addF (0, 0) (prodW s.performance w25)) (prodW s.seo w20))
      (prodW s.accessibility w15)) (prodW s.mobile w15)) (prodW s.ssl w10))
    (prodW s.meta_quality w10)
    (0 + (s.performance : ℚ) * (1 / 4) + (s.seo : ℚ) * (1 / 5) + (s.accessibility : ℚ) * (3 / 20) +
      (s.mobile : ℚ) * (3 / 20) + (s.ssl : ℚ) * (1 / 10))
    ((s.meta_quality : ℚ) * (1 / 10))
    (0 + 2 * (2 : ℚ) ^ (-44 : ℤ) + 2 * (2 : ℚ) ^ (-44 : ℤ) + 2 * (2 : ℚ) ^ (-44 : ℤ) +
      2 * (2 : ℚ) ^ (-44 : ℤ) + 2 * (2 : ℚ) ^ (-44 : ℤ))
    (-368) (by norm_num)
    M5 E5a' E5b m6 e6a e6b ER5 er6
    (by positivity) (by linarith) (by positivity) (by linarith) (by positivity) (by norm_num)
  have E6a' : (-420 : ℤ) ≤ (addF (addF (addF (addF (addF (addF (0, 0)
      (prodW s.performance w25)) (prodW s.seo w20)) (prodW s.accessibility w15))
      (prodW s.mobile w15)) (prodW s.ssl w10)) (prodW s.meta_quality w10)).2 := by omega
  obtain ⟨M7, E7a, E7b, ER7⟩ := chain_step
    (addF (addF (addF (addF (addF (addF (0, 0) (prodW s.performance w25)) (prodW s.seo w20))
      (prodW s.accessibility w15)) (prodW s.mobile w15)) (prodW s.ssl w10))
      (prodW s.meta_quality w10))
    (prodW s.load_speed w05)
    (0 + (s.performance : ℚ) * (1 / 4) + (s.seo : ℚ) * (1 / 5) + (s.accessibility : ℚ) * (3 / 20) +
      (s.mobile : ℚ) * (3 / 20) + (s.ssl : ℚ) * (1 / 10) + (s.meta_quality : ℚ) * (1 / 10))
    ((s.load_speed : ℚ) * (1 / 20))
    (0 + 2 * (2 : ℚ) ^ (-44 : ℤ) + 2 * (2 : ℚ) ^ (-44 : ℤ) + 2 * (2 : ℚ) ^ (-44 : ℤ) +
      2 * (2 : ℚ) ^ (-44 : ℤ) + 2 * (2 : ℚ) ^ (-44 : ℤ) + 2 * (2 : ℚ) ^ (-44 : ℤ))
    (-420) (by norm_num)
    M6 E6a' E6b m7 e7a e7b ER6 er7
    (by positivity) (by linarith) (by positivity) (by linarith) (by positivity) (by norm_num)
  have hcomp : compF s = addF (addF (addF (addF (addF (addF (addF (0, 0)
      (prodW s.performance w25)) (prodW s.seo w20)) (prodW s.accessibility w15))
      (prodW s.mobile w15)) (prodW s.ssl w10)) (prodW s.meta_quality w10))
      (prodW s.load_speed w05) := rfl
  rw [hcomp]
  have hsum : 0 + (s.performance : ℚ) * (1 / 4) + (s.seo : ℚ) * (1 / 5) +
      (s.accessibility : ℚ) * (3 / 20) + (s.mobile : ℚ) * (3 / 20) + (s.ssl : ℚ) * (1 / 10) +
      (s.meta_quality : ℚ) * (1 / 10) + (s.load_speed : ℚ) * (1 / 20) =
      (weightSum s : ℚ) / 20 := by
    unfold weightSum
    push_cast
    ring
  rw [← hsum]
  have hEfin : 0 + 2 * (2 : ℚ) ^ (-44 : ℤ) + 2 * (2 : ℚ) ^ (-44 : ℤ) + 2 * (2 : ℚ) ^ (-44 : ℤ) +
      2 * (2 : ℚ) ^ (-44 : ℤ) + 2 * (2 : ℚ) ^ (-44 : ℤ) + 2 * (2 : ℚ) ^ (-44 : ℤ) +
      2 * (2 : ℚ) ^ (-44 : ℤ) ≤ (2 : ℚ) ^ (-40 : ℤ) := by norm_num
  exact le_trans ER7 hEfin

/-- the composite score is, up to the accumulated double rounding error,
the nearest integer to the exact weighted sum: `20 * composite` differs
from `weightSum` by at most 10. -/
theorem compositeFloat_close (s : CatScores)
    (hp : s.performance ≤ 100) (hs : s.seo ≤ 100) (ha : s.accessibility ≤ 100)
    (hm : s.mobile ≤ 100) (hl : s.ssl ≤ 100) (hq : s.meta_quality ≤ 100)
    (hd : s.load_speed ≤ 100) :
    |20 * compositeFloat s - (weightSum s : ℤ)| ≤ 10 := by
  have herr := compF_err s hp hs ha hm hl hq hd
  have hzeq : (compositeFloat s : ℤ) = rheQ (dval (compF s)) := pyRound_eq (compF s)
  have hrnd : |((compositeFloat s : ℤ) : ℚ) - dval (compF s)| ≤ 1 / 2 := by
    rw [hzeq]
    exact rheQ_abs (dval (compF s))
  have htri : |((compositeFloat s : ℤ) : ℚ) - (weightSum s : ℚ) / 20| ≤ 1 / 2 + (2 : ℚ) ^ (-40 : ℤ) := by
    calc |((compositeFloat s : ℤ) : ℚ) - (weightSum s : ℚ) / 20|
        ≤ |((compositeFloat s : ℤ) : ℚ) - dval (compF s)| +
          |dval (compF s) - (weightSum s : ℚ) / 20| := abs_sub_le _ _ _
      _ ≤ 1 / 2 + (2 : ℚ) ^ (-40 : ℤ) := add_le_add hrnd herr
  have hscaled : |20 * ((compositeFloat s : ℤ) : ℚ) - (weightSum s : ℚ)| < 11 := by
    have h1 : |20 * ((compositeFloat s : ℤ) : ℚ) - (weightSum s : ℚ)| =
        20 * |((compositeFloat s : ℤ) : ℚ) - (weightSum s : ℚ) / 20| := by
      have hsp : 20 * ((compositeFloat s : ℤ) : ℚ) - (weightSum s : ℚ) =
          20 * (((compositeFloat s : ℤ) : ℚ) - (weightSum s : ℚ) / 20) := by ring
      rw [hsp, abs_mul, abs_of_nonneg (by norm_num : (0 : ℚ) ≤ 20)]
    rw [h1]
    have h2 : (2 : ℚ) ^ (-40 : ℤ) < 1 / 40 := by norm_num
    linarith
  have hcast : |20 * ((compositeFloat s : ℤ) : ℚ) - (weightSum s : ℚ)| =
      ((|20 * compositeFloat s - (weightSum s : ℤ)| : ℤ) : ℚ) := by
    rw [Int.cast_abs]
    push_cast
    ring_nf
  rw [hcast] at hscaled
  have h3 : |20 * compositeFloat s - (weightSum s : ℤ)| < 11 := by exact_mod_cast hscaled
  omega

theorem compositeFloat_nonneg (s : CatScores) : 0 ≤ compositeFloat s := by
  unfold compositeFloat
  exact Int.natCast_nonneg _

theorem weightSum_le (s : CatScores)
    (hp : s.performance ≤ 100) (hs : s.seo ≤ 100) (ha : s.accessibility ≤ 100)
    (hm : s.mobile ≤ 100) (hl : s.ssl ≤ 100) (hq : s.meta_quality ≤ 100)
    (hd : s.load_speed ≤ 100) : weightSum s ≤ 2000 := by
  unfold weightSum
  omega

theorem compositeFloat_le_100 (s : CatScores)
    (hp : s.performance ≤ 100) (hs : s.seo ≤ 100) (ha : s.accessibility ≤ 100)
    (hm : s.mobile ≤ 100) (hl : s.ssl ≤ 100) (hq : s.meta_quality ≤ 100)
    (hd : s.load_speed ≤ 100) : compositeFloat s ≤ 100 := by
  have hclose := compositeFloat_close s hp hs ha hm hl hq hd
  have hw : weightSum s ≤ 2000 := weightSum_le s hp hs ha hm hl hq hd
  have hw' : (weightSum s : ℤ) ≤ 2000 := by exact_mod_cast hw
  have hab := abs_le.1 hclose
  omega

/-! ## Monotonicity of the rounding chain -/

theorem flD_zero (t : Int) : flD 0 t = (0, 0) := by
  unfold flD
  simp

theorem flD_eq_flN (m : Nat) (t : Int) (hm : m ≠ 0) (ht : t ≤ 0) :
    flD m t = flN m (2 ^ (-t).toNat) := by
  unfold flD
  rw [if_neg hm]
  by_cases ht0 : t = 0
  · subst ht0
    rw [if_pos (le_refl (0 : Int))]
    norm_num
  · rw [if_neg (by omega : ¬ 0 ≤ t)]

theorem pow_neg_cast_val (m : Nat) (t : Int) (ht : t ≤ 0) :
    (m : ℚ) / ((2 ^ (-t).toNat : ℕ) : ℚ) = (m : ℚ) * 2 ^ t := by
  have hcast : ((2 ^ (-t).toNat : ℕ) : ℚ) = 2 ^ (-t : ℤ) := by
    push_cast
    rw [← zpow_natCast (2 : ℚ) (-t).toNat, Int.toNat_of_nonneg (by omega : 0 ≤ -t)]
  rw [hcast, div_eq_mul_inv, zpow_neg, inv_inv]

theorem flN_dval (a b : Nat) (ha : 1 ≤ a) (hb : 1 ≤ b) :
    dval (flN a b) =
      ((rheQ ((a : ℚ) / b * 2 ^ (52 - flE a b)) : ℤ) : ℚ) * 2 ^ (flE a b - 52) := by
  obtain ⟨hsnd, hfst⟩ := flN_spec a b ha hb
  unfold dval
  rw [hsnd]
  have hfst' : (((flN a b).1 : ℕ) : ℚ) = ((rheQ ((a : ℚ) / b * 2 ^ (52 - flE a b)) : ℤ) : ℚ) := by
    exact_mod_cast hfst
  rw [hfst']

theorem flN_mono (a b a' b' : Nat)
    (ha : 1 ≤ a) (ha2 : a < 2 ^ 1024) (hb : 1 ≤ b) (hb2 : b < 2 ^ 1024)
    (ha' : 1 ≤ a') (ha2' : a' < 2 ^ 1024) (hb' : 1 ≤ b') (hb2' : b' < 2 ^ 1024)
    (hle : (a : ℚ) / b ≤ (a' : ℚ) / b') :
    dval (flN a b) ≤ dval (flN a' b') := by
  have h2pos : (0 : ℚ) < 2 := by norm_num
  have h2one : (1 : ℚ) < 2 := by norm_num
  obtain ⟨hbr1, hbr2⟩ := flE_bracket a b ha ha2 hb hb2
  obtain ⟨hbr1', hbr2'⟩ := flE_bracket a' b' ha' ha2' hb' hb2'
  obtain ⟨-, -, hv1, hv2⟩ := flN_all a b ha ha2 hb hb2
  obtain ⟨-, -, hv1', hv2'⟩ := flN_all a' b' ha' ha2' hb' hb2'
  have hee : flE a b ≤ flE a' b' := by
    have h1 : (2 : ℚ) ^ flE a b < 2 ^ (flE a' b' + 1) :=
      lt_of_le_of_lt (le_trans hbr1 hle) hbr2'
    have h2 := (zpow_lt_zpow_iff_right₀ h2one).1 h1
    omega
  by_cases heq : flE a b = flE a' b'
  · rw [flN_dval a b ha hb, flN_dval a' b' ha' hb', heq]
    apply mul_le_mul_of_nonneg_right _ (le_of_lt (zpow_pos h2pos _))
    have hXle : (a : ℚ) / b * 2 ^ (52 - flE a' b') ≤ (a' : ℚ) / b' * 2 ^ (52 - flE a' b') :=
      mul_le_mul_of_nonneg_right hle (le_of_lt (zpow_pos h2pos _))
    exact_mod_cast rheQ_mono hXle
  · have hlt : flE a b + 1 ≤ flE a' b' := by omega
    calc dval (flN a b) ≤ 2 ^ (flE a b + 1) := hv2
      _ ≤ 2 ^ flE a' b' := zpow_le_zpow_right₀ (le_of_lt h2one) hlt
      _ ≤ dval (flN a' b') := hv1'

theorem flD_mono (m m' : Nat) (t t' : Int)
    (hm : m < 2 ^ 960) (ht1 : -901 ≤ t) (ht2 : t ≤ 0)
    (hm' : m' < 2 ^ 960) (ht1' : -901 ≤ t') (ht2' : t' ≤ 0)
    (hle : (m : ℚ) * 2 ^ t ≤ (m' : ℚ) * 2 ^ t') :
    dval (flD m t) ≤ dval (flD m' t') := by
  by_cases hz : m = 0
  · subst hz
    rw [flD_zero]
    have h0 : dval (0, 0) = 0 := by unfold dval; norm_num
    rw [h0]
    exact dval_nonneg _
  · by_cases hz' : m' = 0
    · exfalso
      have hmq : (1 : ℚ) ≤ (m : ℚ) := by exact_mod_cast Nat.one_le_iff_ne_zero.2 hz
      have hpos : (0 : ℚ) < (m : ℚ) * 2 ^ t := by
        have h2t := zpow_pos (show (0:ℚ) < 2 by norm_num) t
        exact mul_pos (lt_of_lt_of_le zero_lt_one hmq) h2t
      subst hz'
      norm_num at hle
      linarith
    · rw [flD_eq_flN m t hz ht2, flD_eq_flN m' t' hz' ht2']
      have hb2 : 2 ^ (-t).toNat < 2 ^ 1024 := by
        have h : (-t).toNat ≤ 901 := by omega
        calc (2:Nat) ^ (-t).toNat ≤ 2 ^ 901 := Nat.pow_le_pow_right (by norm_num) h
          _ < 2 ^ 1024 := Nat.pow_lt_pow_right (by norm_num) (by norm_num)
      have hb2' : 2 ^ (-t').toNat < 2 ^ 1024 := by
        have h : (-t').toNat ≤ 901 := by omega
        calc (2:Nat) ^ (-t').toNat ≤ 2 ^ 901 := Nat.pow_le_pow_right (by norm_num) h
          _ < 2 ^ 1024 := Nat.pow_lt_pow_right (by norm_num) (by norm_num)
      apply flN_mono m (2 ^ (-t).toNat) m' (2 ^ (-t').toNat)
        (Nat.one_le_iff_ne_zero.2 hz)
        (lt_trans hm (Nat.pow_lt_pow_right (by norm_num) (by norm_num)))
        (Nat.pos_pow_of_pos _ (by norm_num)) hb2
        (Nat.one_le_iff_ne_zero.2 hz')
        (lt_trans hm' (Nat.pow_lt_pow_right (by norm_num) (by norm_num)))
        (Nat.pos_pow_of_pos _ (by norm_num)) hb2'
      rw [pow_neg_cast_val m t ht2, pow_neg_cast_val m' t' ht2']
      exact hle

theorem addF_mono (x y x' y' : Nat × Int)
    (hmx : x.1 ≤ 2 ^ 53) (hex1 : -849 ≤ x.2) (hex2 : x.2 ≤ 0)
    (hmy : y.1 ≤ 2 ^ 53) (hey1 : -849 ≤ y.2) (hey2 : y.2 ≤ 0)
    (hmx' : x'.1 ≤ 2 ^ 53) (hex1' : -849 ≤ x'.2) (hex2' : x'.2 ≤ 0)
    (hmy' : y'.1 ≤ 2 ^ 53) (hey1' : -849 ≤ y'.2) (hey2' : y'.2 ≤ 0)
    (hle : dval x + dval y ≤ dval x' + dval y') :
    dval (addF x y) ≤ dval (addF x' y') := by
  have hM : addF x y = flD (x.1 * 2 ^ (x.2 - min x.2 y.2).toNat +
      y.1 * 2 ^ (y.2 - min x.2 y.2).toNat) (min x.2 y.2) := rfl
  have hM' : addF x' y' = flD (x'.1 * 2 ^ (x'.2 - min x'.2 y'.2).toNat +
      y'.1 * 2 ^ (y'.2 - min x'.2 y'.2).toNat) (min x'.2 y'.2) := rfl
  have hsize : x.1 * 2 ^ (x.2 - min x.2 y.2).toNat + y.1 * 2 ^ (y.2 - min x.2 y.2).toNat < 2 ^ 960 := by
    have hxs : (x.2 - min x.2 y.2).toNat ≤ 849 := by omega
    have hys : (y.2 - min x.2 y.2).toNat ≤ 849 := by omega
    have h1 : x.1 * 2 ^ (x.2 - min x.2 y.2).toNat ≤ 2 ^ 53 * 2 ^ 849 :=
      Nat.mul_le_mul hmx (Nat.pow_le_pow_right (by norm_num) hxs)
    have h2 : y.1 * 2 ^ (y.2 - min x.2 y.2).toNat ≤ 2 ^ 53 * 2 ^ 849 :=
      Nat.mul_le_mul hmy (Nat.pow_le_pow_right (by norm_num) hys)
    have h3 : (2 : Nat) ^ 53 * 2 ^ 849 + 2 ^ 53 * 2 ^ 849 < 2 ^ 960 := by
      have he : (2 : Nat) ^ 53 * 2 ^ 849 + 2 ^ 53 * 2 ^ 849 = 2 ^ 903 := by ring
      rw [he]
      exact Nat.pow_lt_pow_right (by norm_num) (by norm_num)
    omega
  have hsize' : x'.1 * 2 ^ (x'.2 - min x'.2 y'.2).toNat + y'.1 * 2 ^ (y'.2 - min x'.2 y'.2).toNat < 2 ^ 960 := by
    have hxs : (x'.2 - min x'.2 y'.2).toNat ≤ 849 := by omega
    have hys : (y'.2 - min x'.2 y'.2).toNat ≤ 849 := by omega
    have h1 : x'.1 * 2 ^ (x'.2 - min x'.2 y'.2).toNat ≤ 2 ^ 53 * 2 ^ 849 :=
      Nat.mul_le_mul hmx' (Nat.pow_le_pow_right (by norm_num) hxs)
    have h2 : y'.1 * 2 ^ (y'.2 - min x'.2 y'.2).toNat ≤ 2 ^ 53 * 2 ^ 849 :=
      Nat.mul_le_mul hmy' (Nat.pow_le_pow_right (by norm_num) hys)
    have h3 : (2 : Nat) ^ 53 * 2 ^ 849 + 2 ^ 53 * 2 ^ 849 < 2 ^ 960 := by
      have he : (2 : Nat) ^ 53 * 2 ^ 849 + 2 ^ 53 * 2 ^ 849 = 2 ^ 903 := by ring
      rw [he]
      exact Nat.pow_lt_pow_right (by norm_num) (by norm_num)
    omega
  rw [hM, hM']
  apply flD_mono _ _ _ _ hsize (by omega) (by omega) hsize' (by omega) (by omega)
  rw [addF_exact x y, addF_exact x' y']
  exact hle

theorem pyRound_mono (x y : Nat × Int) (h : dval x ≤ dval y) :
    (pyRound x : Int) ≤ (pyRound y : Int) := by
  rw [pyRound_eq x, pyRound_eq y]
  exact rheQ_mono h

theorem prodW_mono (s s' : Nat) (w : Nat × Int) (hss : s ≤ s') (hs' : s' ≤ 100)
    (hwm : w.1 ≤ 2 ^ 53) (hw2a : -56 ≤ w.2) (hw2b : w.2 ≤ -2) :
    dval (prodW s w) ≤ dval (prodW s' w) := by
  have h1 : prodW s w = flD (s * w.1) w.2 := rfl
  have h2 : prodW s' w = flD (s' * w.1) w.2 := rfl
  rw [h1, h2]
  have hsz : s * w.1 < 2 ^ 960 := by
    have h3 : s * w.1 ≤ 100 * 2 ^ 53 := Nat.mul_le_mul (le_trans hss hs') hwm
    have h4 : (100 : ℕ) * 2 ^ 53 < 2 ^ 960 := by norm_num
    omega
  have hsz' : s' * w.1 < 2 ^ 960 := by
    have h3 : s' * w.1 ≤ 100 * 2 ^ 53 := Nat.mul_le_mul hs' hwm
    have h4 : (100 : ℕ) * 2 ^ 53 < 2 ^ 960 := by norm_num
    omega
  apply flD_mono _ _ _ _ hsz (by omega) (by omega) hsz' (by omega) (by omega)
  apply mul_le_mul_of_nonneg_right _ (le_of_lt (zpow_pos (by norm_num) _))
  exact_mod_cast Nat.mul_le_mul_right _ hss

theorem addF_coarse (x y : Nat × Int) (L : Int) (hL : -849 ≤ L)
    (hmx : x.1 ≤ 2 ^ 53) (hex1 : L ≤ x.2) (hex2 : x.2 ≤ 0)
    (hmy : y.1 ≤ 2 ^ 53) (hey1 : L ≤ y.2) (hey2 : y.2 ≤ 0)
    (V : ℚ) (hV : dval x + dval y ≤ V) (hV40 : V ≤ 2 ^ (39 : ℤ)) :
    (addF x y).1 ≤ 2 ^ 53 ∧ L - 52 ≤ (addF x y).2 ∧ (addF x y).2 ≤ 0 ∧
      dval (addF x y) ≤ 2 * V := by
  have hsum0 : 0 ≤ dval x + dval y := by
    have := dval_nonneg x
    have := dval_nonneg y
    linarith
  have hhi : dval x + dval y ≤ 2 ^ (40 : ℤ) := by
    have h : (2 : ℚ) ^ (39 : ℤ) ≤ 2 ^ (40 : ℤ) := by norm_num
    linarith
  obtain ⟨g1, g2, g3, g4⟩ := addF_good x y L hL hmx hex1 hex2 hmy hey1 hey2 hhi
  refine ⟨g1, g2, g3, ?_⟩
  have h5 : dval (addF x y) - (dval x + dval y) ≤ (dval x + dval y) * (2 ^ (52 : ℤ))⁻¹ :=
    le_of_abs_le g4
  have h6 : (dval x + dval y) * (2 ^ (52 : ℤ))⁻¹ ≤ dval x + dval y := by
    have hinv : (2 ^ (52 : ℤ))⁻¹ ≤ (1 : ℚ) := by norm_num
    have hs0 : (0:ℚ) ≤ dval x + dval y := add_nonneg (dval_nonneg x) (dval_nonneg y)
    exact mul_le_of_le_one_right hs0 hinv
  linarith

theorem compF_mono (s s' : CatScores)
    (h1 : s.performance ≤ s'.performance) (h2 : s.seo ≤ s'.seo)
    (h3 : s.accessibility ≤ s'.accessibility) (h4 : s.mobile ≤ s'.mobile)
    (h5 : s.ssl ≤ s'.ssl) (h6 : s.meta_quality ≤ s'.meta_quality)
    (h7 : s.load_speed ≤ s'.load_speed)
    (hp : s'.performance ≤ 100) (hs : s'.seo ≤ 100) (ha : s'.accessibility ≤ 100)
    (hm : s'.mobile ≤ 100) (hl : s'.ssl ≤ 100) (hq : s'.meta_quality ≤ 100)
    (hd : s'.load_speed ≤ 100) :
    dval (compF s) ≤ dval (compF s') := by
  have f25 : |dval w25 - 1 / 4| ≤ 1 / 4 * (2 ^ (52 : ℤ))⁻¹ := by
    unfold dval w25
    rw [abs_le]
    constructor <;> norm_num
  have f20 : |dval w20 - 1 / 5| ≤ 1 / 5 * (2 ^ (52 : ℤ))⁻¹ := by
    unfold dval w20
    rw [abs_le]
    constructor <;> norm_num
  have f15 : |dval w15 - 3 / 20| ≤ 3 / 20 * (2 ^ (52 : ℤ))⁻¹ := by
    unfold dval w15
    rw [abs_le]
    constructor <;> norm_num
  have f10 : |dval w10 - 1 / 10| ≤ 1 / 10 * (2 ^ (52 : ℤ))⁻¹ := by
    unfold dval w10
    rw [abs_le]
    constructor <;> norm_num
  have f05 : |dval w05 - 1 / 20| ≤ 1 / 20 * (2 ^ (52 : ℤ))⁻¹ := by
    unfold dval w05
    rw [abs_le]
    constructor <;> norm_num
  -- value bound for any product with score at most 100
  have pv : ∀ (c : Nat) (w : Nat × Int) (r : ℚ), c ≤ 100 → w.1 ≤ 2 ^ 53 → -56 ≤ w.2 → w.2 ≤ -2 →
      |dval w - r| ≤ r * (2 ^ (52 : ℤ))⁻¹ → 0 < r → r ≤ 1 / 4 →
      (prodW c w).1 ≤ 2 ^ 53 ∧ (-108 : ℤ) ≤ (prodW c w).2 ∧ (prodW c w).2 ≤ 0 ∧
        dval (prodW c w) ≤ 26 := by
    intro c w r hc hwm hw2a hw2b hWr hr0 hr4
    obtain ⟨g1, g2, g3, g4⟩ := prodW_spec c w r hc hwm hw2a hw2b hWr hr0 hr4
    refine ⟨g1, g2, g3, ?_⟩
    have hcr : (c : ℚ) * r ≤ 25 := by
      have hcq : (c : ℚ) ≤ 100 := by exact_mod_cast hc
      have h := mul_le_mul hcq hr4 (le_of_lt hr0) (by norm_num : (0:ℚ) ≤ 100)
      linarith
    have herr := le_of_abs_le g4
    have hsm : (2 : ℚ) ^ (-44 : ℤ) ≤ 1 := by norm_num
    linarith
  obtain ⟨pm1, pe1a, pe1b, pv1⟩ := pv s.performance w25 (1 / 4) (le_trans h1 hp)
    (by norm_num [w25]) (by norm_num [w25]) (by norm_num [w25]) f25 (by norm_num) (by norm_num)
  obtain ⟨pm2, pe2a, pe2b, pv2⟩ := pv s.seo w20 (1 / 5) (le_trans h2 hs)
    (by norm_num [w20]) (by norm_num [w20]) (by norm_num [w20]) f20 (by norm_num) (by norm_num)
  obtain ⟨pm3, pe3a, pe3b, pv3⟩ := pv s.accessibility w15 (3 / 20) (le_trans h3 ha)
    (by norm_num [w15]) (by norm_num [w15]) (by norm_num [w15]) f15 (by norm_num) (by norm_num)
  obtain ⟨pm4, pe4a, pe4b, pv4⟩ := pv s.mobile w15 (3 / 20) (le_trans h4 hm)
    (by norm_num [w15]) (by norm_num [w15]) (by norm_num [w15]) f15 (by norm_num) (by norm_num)
  obtain ⟨pm5, pe5a, pe5b, pv5⟩ := pv s.ssl w10 (1 / 10) (le_trans h5 hl)
    (by norm_num [w10]) (by norm_num [w10]) (by norm_num [w10]) f10 (by norm_num) (by norm_num)
  obtain ⟨pm6, pe6a, pe6b, pv6⟩ := pv s.meta_quality w10 (1 / 10) (le_trans h6 hq)
    (by norm_num [w10]) (by norm_num [w10]) (by norm_num [w10]) f10 (by norm_num) (by norm_num)
  obtain ⟨pm7, pe7a, pe7b, pv7⟩ := pv s.load_speed w05 (1 / 20) (le_trans h7 hd)
    (by norm_num [w05]) (by norm_num [w05]) (by norm_num [w05]) f05 (by norm_num) (by norm_num)
  obtain ⟨qm1, qe1a, qe1b, qv1⟩ := pv s'.performance w25 (1 / 4) hp
    (by norm_num [w25]) (by norm_num [w25]) (by norm_num [w25]) f25 (by norm_num) (by norm_num)
  obtain ⟨qm2, qe2a, qe2b, qv2⟩ := pv s'.seo w20 (1 / 5) hs
    (by norm_num [w20]) (by norm_num [w20]) (by norm_num [w20]) f20 (by norm_num) (by norm_num)
  obtain ⟨qm3, qe3a, qe3b, qv3⟩ := pv s'.accessibility w15 (3 / 20) ha
    (by norm_num [w15]) (by norm_num [w15]) (by norm_num [w15]) f15 (by norm_num) (by norm_num)
  obtain ⟨qm4, qe4a, qe4b, qv4⟩ := pv s'.mobile w15 (3 / 20) hm
    (by norm_num [w15]) (by norm_num [w15]) (by norm_num [w15]) f15 (by norm_num) (by norm_num)
  obtain ⟨qm5, qe5a, qe5b, qv5⟩ := pv s'.ssl w10 (1 / 10) hl
    (by norm_num [w10]) (by norm_num [w10]) (by norm_num [w10]) f10 (by norm_num) (by norm_num)
  obtain ⟨qm6, qe6a, qe6b, qv6⟩ := pv s'.meta_quality w10 (1 / 10) hq
    (by norm_num [w10]) (by norm_num [w10]) (by norm_num [w10]) f10 (by norm_num) (by norm_num)
  obtain ⟨qm7, qe7a, qe7b, qv7⟩ := pv s'.load_speed w05 (1 / 20) hd
    (by norm_num [w05]) (by norm_num [w05]) (by norm_num [w05]) f05 (by norm_num) (by norm_num)
  have hz1 : ((0, 0) : Nat × Int).1 ≤ 2 ^ 53 := by norm_num
  have hz0 : dval (0, 0) = 0 := by unfold dval; norm_num
  -- products are pointwise ordered
  have o1 := prodW_mono s.performance s'.performance w25 h1 hp
    (by norm_num [w25]) (by norm_num [w25]) (by norm_num [w25])
  have o2 := prodW_mono s.seo s'.seo w20 h2 hs
    (by norm_num [w20]) (by norm_num [w20]) (by norm_num [w20])
  have o3 := prodW_mono s.accessibility s'.accessibility w15 h3 ha
    (by norm_num [w15]) (by norm_num [w15]) (by norm_num [w15])
  have o4 := prodW_mono s.mobile s'.mobile w15 h4 hm
    (by norm_num [w15]) (by norm_num [w15]) (by norm_num [w15])
  have o5 := prodW_mono s.ssl s'.ssl w10 h5 hl
    (by norm_num [w10]) (by norm_num [w10]) (by norm_num [w10])
  have o6 := prodW_mono s.meta_quality s'.meta_quality w10 h6 hq
    (by norm_num [w10]) (by norm_num [w10]) (by norm_num [w10])
  have o7 := prodW_mono s.load_speed s'.load_speed w05 h7 hd
    (by norm_num [w05]) (by norm_num [w05]) (by norm_num [w05])
  -- the s chain: coarse representation and value facts
  obtain ⟨sm1, se1a, se1b, sv1⟩ := addF_coarse (0, 0) (prodW s.performance w25) (-108)
    (by norm_num) hz1 (by norm_num) (by norm_num) pm1 pe1a pe1b 26
    (by rw [hz0]; linarith) (by norm_num)
  obtain ⟨sm2, se2a, se2b, sv2⟩ := addF_coarse _ (prodW s.seo w20) (-160)
    (by norm_num) sm1 (by omega) se1b pm2 (by omega) pe2b 78 (by linarith) (by norm_num)
  obtain ⟨sm3, se3a, se3b, sv3⟩ := addF_coarse _ (prodW s.accessibility w15) (-212)
    (by norm_num) sm2 (by omega) se2b pm3 (by omega) pe3b 182 (by linarith) (by norm_num)
  obtain ⟨sm4, se4a, se4b, sv4⟩ := addF_coarse _ (prodW s.mobile w15) (-264)
    (by norm_num) sm3 (by omega) se3b pm4 (by omega) pe4b 390 (by linarith) (by norm_num)
  obtain ⟨sm5, se5a, se5b, sv5⟩ := addF_coarse _ (prodW s.ssl w10) (-316)
    (by norm_num) sm4 (by omega) se4b pm5 (by omega) pe5b 806 (by linarith) (by norm_num)
  obtain ⟨sm6, se6a, se6b, sv6⟩ := addF_coarse _ (prodW s.meta_quality w10) (-368)
    (by norm_num) sm5 (by omega) se5b pm6 (by omega) pe6b 1638 (by linarith) (by norm_num)
  -- the s' chain
  obtain ⟨tm1, te1a, te1b, tv1⟩ := addF_coarse (0, 0) (prodW s'.performance w25) (-108)
    (by norm_num) hz1 (by norm_num) (by norm_num) qm1 qe1a qe1b 26
    (by rw [hz0]; linarith) (by norm_num)
  obtain ⟨tm2, te2a, te2b, tv2⟩ := addF_coarse _ (prodW s'.seo w20) (-160)
    (by norm_num) tm1 (by omega) te1b qm2 (by omega) qe2b 78 (by linarith) (by norm_num)
  obtain ⟨tm3, te3a, te3b, tv3⟩ := addF_coarse _ (prodW s'.accessibility w15) (-212)
    (by norm_num) tm2 (by omega) te2b qm3 (by omega) qe3b 182 (by linarith) (by norm_num)
  obtain ⟨tm4, te4a, te4b, tv4⟩ := addF_coarse _ (prodW s'.mobile w15) (-264)
    (by norm_num) tm3 (by omega) te3b qm4 (by omega) qe4b 390 (by linarith) (by norm_num)
  obtain ⟨tm5, te5a, te5b, tv5⟩ := addF_coarse _ (prodW s'.ssl w10) (-316)
    (by norm_num) tm4 (by omega) te4b qm5 (by omega) qe5b 806 (by linarith) (by norm_num)
  obtain ⟨tm6, te6a, te6b, tv6⟩ := addF_coarse _ (prodW s'.meta_quality w10) (-368)
    (by norm_num) tm5 (by omega) te5b qm6 (by omega) qe6b 1638 (by linarith) (by norm_num)
  -- now the monotone ladder
  have d1 : dval (addF (0, 0) (prodW s.performance w25)) ≤
      dval (addF (0, 0) (prodW s'.performance w25)) := by
    apply addF_mono _ _ _ _ hz1 (by norm_num) (by norm_num) pm1 (by omega) pe1b
      hz1 (by norm_num) (by norm_num) qm1 (by omega) qe1b
    linarith
  have d2 : dval (addF (addF (0, 0) (prodW s.performance w25)) (prodW s.seo w20)) ≤
      dval (addF (addF (0, 0) (prodW s'.performance w25)) (prodW s'.seo w20)) := by
    apply addF_mono _ _ _ _ sm1 (by omega : (-849 : ℤ) ≤ _) se1b pm2 (by omega) pe2b
      tm1 (by omega : (-849 : ℤ) ≤ _) te1b qm2 (by omega) qe2b
    linarith
  have d3 : dval (addF (addF (addF (0, 0) (prodW s.performance w25)) (prodW s.seo w20))
      (prodW s.accessibility w15)) ≤
      dval (addF (addF (addF (0, 0) (prodW s'.performance w25)) (prodW s'.seo w20))
      (prodW s'.accessibility w15)) := by
    apply addF_mono _ _ _ _ sm2 (by omega : (-849 : ℤ) ≤ _) se2b pm3 (by omega) pe3b
      tm2 (by omega : (-849 : ℤ) ≤ _) te2b qm3 (by omega) qe3b
    linarith
  have d4 : dval (addF (addF (addF (addF (0, 0) (prodW s.performance w25)) (prodW s.seo w20))
      (prodW s.accessibility w15)) (prodW s.mobile w15)) ≤
      dval (addF (addF (addF (addF (0, 0) (prodW s'.performance w25)) (prodW s'.seo w20))
      (prodW s'.accessibility w15)) (prodW s'.mobile w15)) := by
    apply addF_mono _ _ _ _ sm3 (by omega : (-849 : ℤ) ≤ _) se3b pm4 (by omega) pe4b
      tm3 (by omega : (-849 : ℤ) ≤ _) te3b qm4 (by omega) qe4b
    linarith
  have d5 : dval (addF (addF (addF (addF (addF (0, 0) (prodW s.performance w25))
      (prodW s.seo w20)) (prodW s.accessibility w15)) (prodW s.mobile w15)) (prodW s.ssl w10)) ≤
      dval (addF (addF (addF (addF (addF (0, 0) (prodW s'.performance w25))
      (prodW s'.seo w20)) (prodW s'.accessibility w15)) (prodW s'.mobile w15)) (prodW s'.ssl w10)) := by
    apply addF_mono _ _ _ _ sm4 (by omega : (-849 : ℤ) ≤ _) se4b pm5 (by omega) pe5b
      tm4 (by omega : (-849 : ℤ) ≤ _) te4b qm5 (by omega) qe5b
    linarith
  have d6 : dval (addF (addF (addF (addF (addF (addF (0, 0) (prodW s.performance w25))
      (prodW s.seo w20)) (prodW s.accessibility w15)) (prodW s.mobile w15)) (prodW s.ssl w10))
      (prodW s.meta_quality w10)) ≤
      dval (addF (addF (addF (addF (addF (addF (0, 0) (prodW s'.performance w25))
      (prodW s'.seo w20)) (prodW s'.accessibility w15)) (prodW s'.mobile w15)) (prodW s'.ssl w10))
      (prodW s'.meta_quality w10)) := by
    apply addF_mono _ _ _ _ sm5 (by omega : (-849 : ℤ) ≤ _) se5b pm6 (by omega) pe6b
      tm5 (by omega : (-849 : ℤ) ≤ _) te5b qm6 (by omega) qe6b
    linarith
  have d7 : dval (compF s) ≤ dval (compF s') := by
    have hc : compF s = addF (addF (addF (addF (addF (addF (addF (0, 0)
        (prodW s.performance w25)) (prodW s.seo w20)) (prodW s.accessibility w15))
        (prodW s.mobile w15)) (prodW s.ssl w10)) (prodW s.meta_quality w10))
        (prodW s.load_speed w05) := rfl
    have hc' : compF s' = addF (addF (addF (addF (addF (addF (addF (0, 0)
        (prodW s'.performance w25)) (prodW s'.seo w20)) (prodW s'.accessibility w15))
        (prodW s'.mobile w15)) (prodW s'.ssl w10)) (prodW s'.meta_quality w10))
        (prodW s'.load_speed w05) := rfl
    rw [hc, hc']
    apply addF_mono _ _ _ _ sm6 (by omega : (-849 : ℤ) ≤ _) se6b pm7 (by omega) pe7b
      tm6 (by omega : (-849 : ℤ) ≤ _) te6b qm7 (by omega) qe7b
    linarith
  exact d7

/-- the composite score is monotone: raising category scores (pointwise,
within range) never lowers the rounded composite. -/
theorem compositeFloat_mono (s s' : CatScores)
    (h1 : s.performance ≤ s'.performance) (h2 : s.seo ≤ s'.seo)
    (h3 : s.accessibility ≤ s'.accessibility) (h4 : s.mobile ≤ s'.mobile)
    (h5 : s.ssl ≤ s'.ssl) (h6 : s.meta_quality ≤ s'.meta_quality)
    (h7 : s.load_speed ≤ s'.load_speed)
    (hp : s'.performance ≤ 100) (hs : s'.seo ≤ 100) (ha : s'.accessibility ≤ 100)
    (hm : s'.mobile ≤ 100) (hl : s'.ssl ≤ 100) (hq : s'.meta_quality ≤ 100)
    (hd : s'.load_speed ≤ 100) :
    compositeFloat s ≤ compositeFloat s' := by
  unfold compositeFloat
  exact pyRound_mono _ _ (compF_mono s s' h1 h2 h3 h4 h5 h6 h7 hp hs ha hm hl hq hd)

/-! ## The load-speed interpolation -/

theorem floor_natCast_div (A B : Nat) (hB : 0 < B) : ⌊(A : ℚ) / B⌋ = ((A / B : ℕ) : Int) := by
  have hBpos : (0 : ℚ) < B := by exact_mod_cast hB
  have hdm : B * (A / B) + A % B = A := Nat.div_add_mod A B
  have hmod : A % B < B := Nat.mod_lt _ hB
  have hAq : (A : ℚ) = B * (A / B : ℕ) + (A % B : ℕ) := by exact_mod_cast hdm.symm
  have hmq : ((A % B : ℕ) : ℚ) < B := by exact_mod_cast hmod
  rw [Int.floor_eq_iff]
  constructor
  · rw [le_div_iff hBpos]
    push_cast
    exact_mod_cast Nat.div_mul_le_self A B
  · rw [div_lt_iff hBpos, Int.cast_natCast]
    nlinarith [hAq, hmq]

theorem floorD_eq (x : Nat × Int) : (floorD x : Int) = ⌊dval x⌋ := by
  unfold floorD
  by_cases ht : 0 ≤ x.2
  · rw [if_pos ht]
    have hdv : dval x = ((x.1 * 2 ^ x.2.toNat : ℕ) : ℚ) := by
      unfold dval
      push_cast
      rw [← zpow_natCast (2 : ℚ) x.2.toNat, Int.toNat_of_nonneg ht]
    rw [hdv]
    have : (((x.1 * 2 ^ x.2.toNat : ℕ) : ℚ)) = (((x.1 * 2 ^ x.2.toNat : ℕ) : ℤ) : ℚ) := by
      push_cast
      ring
    rw [this, Int.floor_intCast]
  · rw [if_neg ht]
    have harg : dval x = (x.1 : ℚ) / ((2 ^ (-x.2).toNat : ℕ) : ℚ) := by
      rw [pow_neg_cast_val x.1 x.2 (by omega)]
      rfl
    rw [harg, floor_natCast_div _ _ (Nat.pos_pow_of_pos _ (by norm_num))]

theorem checkAll_sound (f : Nat → Bool) :
    ∀ fuel s c, checkAll f fuel s c = true → ∀ i, i < c → f (s + i) = true := by
  intro fuel
  induction fuel with
  | zero =>
    intro s c h i hi
    simp [checkAll] at h
    omega
  | succ n ih =>
    intro s c h i hi
    rw [checkAll] at h
    by_cases hc0 : c = 0
    · omega
    · rw [if_neg hc0] at h
      by_cases hc1 : c = 1
      · rw [if_pos hc1] at h
        have hi0 : i = 0 := by omega
        subst hi0
        simpa using h
      · rw [if_neg hc1, Bool.and_eq_true] at h
        by_cases hc : i < c / 2
        · exact ih s (c / 2) h.1 i hc
        · have h2 := ih (s + c / 2) (c - c / 2) h.2 (i - c / 2) (by omega)
          have e : s + c / 2 + (i - c / 2) = s + i := by omega
          rwa [e] at h2

set_option maxHeartbeats 1000000 in
theorem loadInterp_nonexc (v : Nat) (h1 : 1001 ≤ v) (h2 : v ≤ 4999) (h40 : ¬ v % 40 = 0) :
    loadInterp v = (5000 - v) / 40 := by
  have h2pos : (0 : ℚ) < 2 := by norm_num
  have h2one : (1 : ℚ) < 2 := by norm_num
  set d1 := flN (v - 1000) 4000 with hd1
  set d2 := flD (100 * d1.1) d1.2 with hd2
  set d3 := flD (100 * 2 ^ (-d2.2).toNat - d2.1) d2.2 with hd3
  have hLI : loadInterp v = floorD d3 := rfl
  -- step 1: d1 is the correctly rounded quotient k / 4000
  have hk1 : 1 ≤ v - 1000 := by omega
  have hk2 : v - 1000 < 2 ^ 1024 := by
    have ha : v - 1000 < 4096 := by omega
    have hb : (4096 : ℕ) = 2 ^ 12 := by norm_num
    have hc : (2 : ℕ) ^ 12 ≤ 2 ^ 1024 := Nat.pow_le_pow_right (by norm_num) (by norm_num)
    omega
  have h4000a : 1 ≤ 4000 := by norm_num
  have h4000b : (4000 : ℕ) < 2 ^ 1024 := by
    have hb : (4000 : ℕ) < 2 ^ 12 := by norm_num
    have hc : (2 : ℕ) ^ 12 ≤ 2 ^ 1024 := Nat.pow_le_pow_right (by norm_num) (by norm_num)
    omega
  set k : ℚ := ((v - 1000 : ℕ) : ℚ) with hkq
  have hkq1 : 1 ≤ k := by rw [hkq]; exact_mod_cast hk1
  have hkq2 : k ≤ 3999 := by
    have h : v - 1000 ≤ 3999 := by omega
    rw [hkq]
    exact_mod_cast h
  have hv1pos : (0 : ℚ) < k / 4000 :=
    div_pos (lt_of_lt_of_le one_pos hkq1) (by norm_num)
  have hv1lt : k / 4000 < 1 := by
    rw [div_lt_one (by norm_num)]
    linarith
  have hv1ge : (2 : ℚ) ^ (-12 : ℤ) ≤ k / 4000 := by
    rw [le_div_iff (by norm_num)]
    have : (2 : ℚ) ^ (-12 : ℤ) * 4000 < 1 := by norm_num
    linarith
  obtain ⟨he1, hm1, -, -⟩ := flN_all (v - 1000) 4000 hk1 hk2 h4000a h4000b
  obtain ⟨hs1, -⟩ := flN_spec (v - 1000) 4000 hk1 h4000a
  obtain ⟨hb1, hb2⟩ := flE_bracket (v - 1000) 4000 hk1 hk2 h4000a h4000b
  have hE1ub : flE (v - 1000) 4000 ≤ -1 := by
    have hlt : (2 : ℚ) ^ flE (v - 1000) 4000 < 2 ^ (0 : ℤ) := by
      rw [zpow_zero]
      exact lt_of_le_of_lt hb1 hv1lt
    have := (zpow_lt_zpow_iff_right₀ h2one).1 hlt
    omega
  have hE1lb : -12 ≤ flE (v - 1000) 4000 := by
    have hlt : (2 : ℚ) ^ (-12 : ℤ) < 2 ^ (flE (v - 1000) 4000 + 1) :=
      lt_of_le_of_lt hv1ge hb2
    have := (zpow_lt_zpow_iff_right₀ h2one).1 hlt
    omega
  have ht1a : -64 ≤ d1.2 := by rw [hd1, hs1]; omega
  have ht1b : d1.2 ≤ -53 := by rw [hd1, hs1]; omega
  have herr1 : |dval d1 - k / 4000| ≤ k / 4000 * (2 ^ (52 : ℤ))⁻¹ := he1
  have hd1hi : dval d1 ≤ 1 := by
    have ha := le_of_abs_le herr1
    have hb : k / 4000 * (2 ^ (52 : ℤ))⁻¹ ≤ (2 ^ (52 : ℤ))⁻¹ := by
      have : (0 : ℚ) < (2 ^ (52 : ℤ))⁻¹ := by positivity
      exact mul_le_of_le_one_left (le_of_lt this) (le_of_lt hv1lt)
    have hc : k / 4000 + (2 ^ (52 : ℤ))⁻¹ ≤ 1 := by
      have h1 : k / 4000 ≤ 3999 / 4000 := by linarith
      have h2 : (2 : ℚ) ^ (52 : ℤ) ≥ 4096 := by norm_num
      have h3 : (2 ^ (52 : ℤ) : ℚ)⁻¹ ≤ 1 / 4096 := by norm_num
      linarith
    linarith
  -- step 2: d2 = fl(100 * d1)
  have hm2size : 100 * d1.1 < 2 ^ 960 := by
    have h3 : 100 * d1.1 ≤ 100 * 2 ^ 53 := by rw [hd1]; omega
    have h4 : (100 : ℕ) * 2 ^ 53 < 2 ^ 960 := by norm_num
    omega
  have hV2 : ((100 * d1.1 : ℕ) : ℚ) * 2 ^ d1.2 = 100 * dval d1 := by
    unfold dval
    push_cast
    ring
  have hV2hi : ((100 * d1.1 : ℕ) : ℚ) * 2 ^ d1.2 ≤ 2 ^ (40 : ℤ) := by
    rw [hV2]
    have : (100 : ℚ) * dval d1 ≤ 100 := by linarith
    have h40' : (100 : ℚ) ≤ 2 ^ (40 : ℤ) := by norm_num
    linarith
  obtain ⟨gm2, gt2a, gt2b, ge2⟩ := flD_all (100 * d1.1) d1.2 hm2size (by omega) (by omega) hV2hi
  rw [← hd2] at gm2 gt2a gt2b ge2
  rw [hV2] at ge2
  have herr2 : |dval d2 - k / 40| ≤ (2 : ℚ) ^ (-44 : ℤ) := by
    have hsplit : |dval d2 - k / 40| ≤ |dval d2 - 100 * dval d1| + |100 * dval d1 - k / 40| :=
      abs_sub_le _ _ _
    have hmid : |100 * dval d1 - k / 40| = 100 * |dval d1 - k / 4000| := by
      have hsp : 100 * dval d1 - k / 40 = 100 * (dval d1 - k / 4000) := by ring
      rw [hsp, abs_mul, abs_of_nonneg (by norm_num : (0 : ℚ) ≤ 100)]
    have hstep1 : |dval d2 - 100 * dval d1| ≤ 101 * (2 ^ (52 : ℤ))⁻¹ := by
      have hb : (100 : ℚ) * dval d1 * (2 ^ (52 : ℤ))⁻¹ ≤ 101 * (2 ^ (52 : ℤ))⁻¹ := by
        have h1 : (100 : ℚ) * dval d1 ≤ 101 := by linarith
        have h2 : (0 : ℚ) < (2 ^ (52 : ℤ))⁻¹ := by positivity
        exact mul_le_mul_of_nonneg_right h1 (le_of_lt h2)
      exact le_trans ge2 hb
    have hstep2 : 100 * |dval d1 - k / 4000| ≤ 100 * (2 ^ (52 : ℤ))⁻¹ := by
      have hb : k / 4000 * (2 ^ (52 : ℤ))⁻¹ ≤ (2 ^ (52 : ℤ))⁻¹ := by
        have hp : (0 : ℚ) < (2 ^ (52 : ℤ))⁻¹ := by positivity
        exact mul_le_of_le_one_left (le_of_lt hp) (le_of_lt hv1lt)
      have := le_trans herr1 hb
      linarith
    have hfin : (101 : ℚ) * (2 ^ (52 : ℤ))⁻¹ + 100 * (2 ^ (52 : ℤ))⁻¹ ≤ 2 ^ (-44 : ℤ) := by
      norm_num
    rw [hmid] at hsplit
    linarith
  have hd2hi : dval d2 < 100 := by
    have ha := le_of_abs_le herr2
    have hb : k / 40 ≤ 3999 / 40 := by linarith
    have hc : (2 : ℚ) ^ (-44 : ℤ) < 1 / 40 := by norm_num
    linarith
  -- step 3: the subtraction 100 - d2 is exact in the naturals
  have hm2leq : (d2.1 : ℚ) ≤ 100 * 2 ^ (-d2.2 : ℤ) := by
    have hval : (d2.1 : ℚ) * 2 ^ d2.2 ≤ 100 := le_of_lt hd2hi
    have hpos : (0 : ℚ) < 2 ^ (-d2.2 : ℤ) := zpow_pos h2pos _
    have hprod : (2 : ℚ) ^ d2.2 * 2 ^ (-d2.2 : ℤ) = 1 := by
      rw [← zpow_add₀ (by norm_num : (2 : ℚ) ≠ 0)]
      simp
    calc (d2.1 : ℚ) = (d2.1 : ℚ) * (2 ^ d2.2 * 2 ^ (-d2.2 : ℤ)) := by rw [hprod, mul_one]
      _ = ((d2.1 : ℚ) * 2 ^ d2.2) * 2 ^ (-d2.2 : ℤ) := by ring
      _ ≤ 100 * 2 ^ (-d2.2 : ℤ) := mul_le_mul_of_nonneg_right hval (le_of_lt hpos)
  have hc100 : ((100 * 2 ^ (-d2.2).toNat : ℕ) : ℚ) = 100 * 2 ^ (-d2.2 : ℤ) := by
    push_cast
    rw [← zpow_natCast (2 : ℚ) (-d2.2).toNat, Int.toNat_of_nonneg (by omega : 0 ≤ -d2.2)]
  have hm2leN : d2.1 ≤ 100 * 2 ^ (-d2.2).toNat := by
    have := hm2leq
    rw [← hc100] at this
    exact_mod_cast this
  have hMv : ((100 * 2 ^ (-d2.2).toNat - d2.1 : ℕ) : ℚ) * 2 ^ d2.2 = 100 - dval d2 := by
    rw [Nat.cast_sub hm2leN, hc100]
    unfold dval
    have hprod : (2 : ℚ) ^ (-d2.2 : ℤ) * 2 ^ d2.2 = 1 := by
      rw [← zpow_add₀ (by norm_num : (2 : ℚ) ≠ 0)]
      simp
    calc (100 * 2 ^ (-d2.2 : ℤ) - (d2.1 : ℚ)) * 2 ^ d2.2
        = 100 * (2 ^ (-d2.2 : ℤ) * 2 ^ d2.2) - (d2.1 : ℚ) * 2 ^ d2.2 := by ring
      _ = 100 - (d2.1 : ℚ) * 2 ^ d2.2 := by rw [hprod, mul_one]
  have hMsize : 100 * 2 ^ (-d2.2).toNat - d2.1 < 2 ^ 960 := by
    have hexp : (-d2.2).toNat ≤ 116 := by omega
    have h3 : 100 * 2 ^ (-d2.2).toNat ≤ 100 * 2 ^ 116 :=
      Nat.mul_le_mul_left _ (Nat.pow_le_pow_right (by norm_num) hexp)
    have h4 : (100 : ℕ) * 2 ^ 116 < 2 ^ 960 := by norm_num
    omega
  have hV3hi : ((100 * 2 ^ (-d2.2).toNat - d2.1 : ℕ) : ℚ) * 2 ^ d2.2 ≤ 2 ^ (40 : ℤ) := by
    rw [hMv]
    have h5 : (0 : ℚ) ≤ dval d2 := dval_nonneg d2
    have h6 : (100 : ℚ) ≤ 2 ^ (40 : ℤ) := by norm_num
    linarith
  obtain ⟨-, -, -, ge3⟩ := flD_all (100 * 2 ^ (-d2.2).toNat - d2.1) d2.2 hMsize
    (by omega) (by omega) hV3hi
  rw [← hd3] at ge3
  rw [hMv] at ge3
  have herr3 : |dval d3 - (100 - k / 40)| ≤ (2 : ℚ) ^ (-43 : ℤ) := by
    have hsplit : |dval d3 - (100 - k / 40)| ≤
        |dval d3 - (100 - dval d2)| + |(100 - dval d2) - (100 - k / 40)| := abs_sub_le _ _ _
    have hstep1 : |dval d3 - (100 - dval d2)| ≤ 100 * (2 ^ (52 : ℤ))⁻¹ := by
      have hb : (100 - dval d2) * (2 ^ (52 : ℤ))⁻¹ ≤ 100 * (2 ^ (52 : ℤ))⁻¹ := by
        have h5 : (0 : ℚ) ≤ dval d2 := dval_nonneg d2
        have h7 : (0 : ℚ) < (2 ^ (52 : ℤ))⁻¹ := by positivity
        exact mul_le_mul_of_nonneg_right (by linarith) (le_of_lt h7)
      exact le_trans ge3 hb
    have hstep2 : |(100 - dval d2) - (100 - k / 40)| = |dval d2 - k / 40| := by
      have hsp : (100 - dval d2) - (100 - k / 40) = -(dval d2 - k / 40) := by ring
      rw [hsp, abs_neg]
    have hfin : (100 : ℚ) * (2 ^ (52 : ℤ))⁻¹ + 2 ^ (-44 : ℤ) ≤ 2 ^ (-43 : ℤ) := by norm_num
    rw [hstep2] at hsplit
    linarith [herr2]
  -- the exact value sits strictly inside an integer gap
  have hknat : v - 1000 ≤ 4000 := by omega
  have hq : 40 * ((4000 - (v - 1000)) / 40) + (4000 - (v - 1000)) % 40 = 4000 - (v - 1000) :=
    Nat.div_add_mod _ _
  have hr1 : 1 ≤ (4000 - (v - 1000)) % 40 := by omega
  have hr2 : (4000 - (v - 1000)) % 40 ≤ 39 := by omega
  have hE : 100 - k / 40 =
      ((4000 - (v - 1000)) / 40 : ℕ) + ((4000 - (v - 1000)) % 40 : ℕ) / 40 := by
    have hcast : ((4000 - (v - 1000) : ℕ) : ℚ) = 4000 - k := by
      rw [hkq]
      push_cast [hknat]
      ring
    have hcast2 : ((4000 - (v - 1000) : ℕ) : ℚ) =
        40 * ((4000 - (v - 1000)) / 40 : ℕ) + ((4000 - (v - 1000)) % 40 : ℕ) := by
      exact_mod_cast hq.symm
    have h40q : (100 : ℚ) - k / 40 = ((4000 - (v - 1000) : ℕ) : ℚ) / 40 := by
      rw [hcast]
      ring
    rw [h40q, hcast2]
    ring
  have hfloor : ⌊dval d3⌋ = (((4000 - (v - 1000)) / 40 : ℕ) : ℤ) := by
    rw [Int.floor_eq_iff]
    have hrq1 : (1 : ℚ) / 40 ≤ ((4000 - (v - 1000)) % 40 : ℕ) / 40 := by
      have : (1 : ℚ) ≤ ((4000 - (v - 1000)) % 40 : ℕ) := by exact_mod_cast hr1
      linarith [this]
    have hrq2 : (((4000 - (v - 1000)) % 40 : ℕ) : ℚ) / 40 ≤ 39 / 40 := by
      have : (((4000 - (v - 1000)) % 40 : ℕ) : ℚ) ≤ 39 := by exact_mod_cast hr2
      linarith
    have hlo := le_of_abs_le herr3
    have hhi := neg_le_of_abs_le herr3
    have hsmall : (2 : ℚ) ^ (-43 : ℤ) < 1 / 40 := by norm_num
    constructor
    · rw [Int.cast_natCast]
      have : (100 : ℚ) - k / 40 - 2 ^ (-43 : ℤ) ≤ dval d3 := by linarith
      rw [hE] at this
      linarith
    · rw [Int.cast_natCast]
      have : dval d3 ≤ (100 : ℚ) - k / 40 + 2 ^ (-43 : ℤ) := by linarith
      rw [hE] at this
      linarith
  have hLIz : (loadInterp v : ℤ) = (((4000 - (v - 1000)) / 40 : ℕ) : ℤ) := by
    rw [hLI, floorD_eq d3, hfloor]
  have hLIn : loadInterp v = (4000 - (v - 1000)) / 40 := Nat.cast_inj.mp hLIz
  have heq : 4000 - (v - 1000) = 5000 - v := by omega
  rw [hLIn, heq]

set_option maxHeartbeats 1000000 in
theorem loadInterp_exc_check :
    checkAll (fun i => loadInterp (1040 + 40 * i) == loadAmended (1040 + 40 * i)) 8 0 99 = true := by
  decide

theorem beq_nat_true_eq (a b : Nat) (h : (a == b) = true) : a = b :=
  eq_of_beq h

theorem loadInterp_eq (v : Nat) (h1 : 1001 ≤ v) (h2 : v ≤ 4999) :
    loadInterp v = loadAmended v := by
  by_cases h40 : v % 40 = 0
  · have hi : (v - 1040) / 40 < 99 := by omega
    have hch := checkAll_sound _ 8 0 99 loadInterp_exc_check ((v - 1040) / 40) hi
    have hv0 : 0 + (v - 1040) / 40 = (v - 1040) / 40 := by omega
    rw [hv0] at hch
    have hch2 : (loadInterp (1040 + 40 * ((v - 1040) / 40)) ==
        loadAmended (1040 + 40 * ((v - 1040) / 40))) = true := hch
    have hvv : 1040 + 40 * ((v - 1040) / 40) = v := by omega
    rw [hvv] at hch2
    exact beq_nat_true_eq _ _ hch2
  · have hne1 : v ≠ 3200 := by omega
    have hne2 : v ≠ 3240 := by omega
    unfold loadAmended
    rw [if_neg hne1, if_neg hne2]
    exact loadInterp_nonexc v h1 h2 h40

/-- full characterisation of the load-speed category score: the
else-branch of the source computes `loadAmended`. -/
theorem loadSpeedScore_eq (f : PyVal Nat) :
    loadSpeedScore f =
      match f with
      | absent => 50
      | pynone => 50
      | val v =>
        if v = 0 then 50
        else if v ≤ 1000 then 100
        else if 5000 ≤ v then 0
        else loadAmended v := by
  cases f with
  | absent => rfl
  | pynone => rfl
  | val v =>
    show (if v = 0 then 50 else if v ≤ 1000 then 100
        else if 5000 ≤ v then 0 else loadInterp v) =
      (if v = 0 then 50 else if v ≤ 1000 then 100
        else if 5000 ≤ v then 0 else loadAmended v)
    by_cases h0 : v = 0
    · rw [if_pos h0, if_pos h0]
    · rw [if_neg h0, if_neg h0]
      by_cases h1 : v ≤ 1000
      · rw [if_pos h1, if_pos h1]
      · rw [if_neg h1, if_neg h1]
        by_cases h5 : 5000 ≤ v
        · rw [if_pos h5, if_pos h5]
        · rw [if_neg h5, if_neg h5]
          exact loadInterp_eq v (by omega) (by omega)

theorem loadAmended_le (v : Nat) (h : 1001 ≤ v) : loadAmended v ≤ 100 := by
  unfold loadAmended
  split_ifs <;> omega

theorem loadSpeedScore_le (f : PyVal Nat) : loadSpeedScore f ≤ 100 := by
  cases f with
  | absent => show (50 : ℕ) ≤ 100; norm_num
  | pynone => show (50 : ℕ) ≤ 100; norm_num
  | val v =>
    show (if v = 0 then 50 else if v ≤ 1000 then 100
        else if 5000 ≤ v then 0 else loadInterp v) ≤ 100
    by_cases h0 : v = 0
    · rw [if_pos h0]; norm_num
    · rw [if_neg h0]
      by_cases h1 : v ≤ 1000
      · rw [if_pos h1]
      · rw [if_neg h1]
        by_cases h5 : 5000 ≤ v
        · rw [if_pos h5]; norm_num
        · rw [if_neg h5]
          rw [loadInterp_eq v (by omega) (by omega)]
          exact loadAmended_le v (by omega)

theorem orZero_le (f : PyVal Nat) (h : validScoreB f = true) : orZero f ≤ 100 := by
  cases f with
  | absent => norm_num [orZero]
  | pynone => norm_num [orZero]
  | val v =>
    have hv : v ≤ 100 := by
      unfold validScoreB at h
      exact of_decide_eq_true h
    show (if v = 0 then 0 else v) ≤ 100
    split_ifs <;> omega

theorem metaQuality_le (a : Audit) : metaQuality a ≤ 100 := by
  unfold metaQuality
  split_ifs <;> omega

theorem catScores_le (a : Audit) (h : ValidAudit a) :
    (catScores a).performance ≤ 100 ∧ (catScores a).seo ≤ 100 ∧
      (catScores a).accessibility ≤ 100 ∧ (catScores a).mobile ≤ 100 ∧
      (catScores a).ssl ≤ 100 ∧ (catScores a).meta_quality ≤ 100 ∧
      (catScores a).load_speed ≤ 100 := by
  obtain ⟨h1, h2, h3⟩ := h
  unfold catScores
  refine ⟨orZero_le _ h1, orZero_le _ h2, orZero_le _ h3, ?_, ?_, metaQuality_le a,
    loadSpeedScore_le _⟩
  · show (if truthy a.mobile_friendly then 100 else 0) ≤ 100
    split_ifs <;> omega
  · show (if truthy a.ssl_valid then 100 else 0) ≤ 100
    split_ifs <;> omega

/-- unfolding `score` when `major_issues` is a stored list. -/
theorem score_eq_val (a : Audit) (issues : List Issue) (h : a.major_issues = val issues) :
    score a = some (score.scoreResult (catScores a) (compositeFloat (catScores a))
      (classify (compositeFloat (catScores a))) issues) := by
  unfold score
  rw [h]

/-- unfolding `score` when `major_issues` is missing. -/
theorem score_eq_absent (a : Audit) (h : a.major_issues = absent) :
    score a = some (score.scoreResult (catScores a) (compositeFloat (catScores a))
      (classify (compositeFloat (catScores a))) []) := by
  unfold score
  rw [h]

/-- unfolding `score` when `major_issues` is a stored `None`: the Python
code raises `TypeError` iterating `None`. -/
theorem score_eq_pynone (a : Audit) (h : a.major_issues = pynone) : score a = none := by
  unfold score
  rw [h]

theorem scoreResult_composite (sc : CatScores) (comp : Int) (pr0 : String) (issues : List Issue) :
    (score.scoreResult sc comp pr0 issues).composite_score = comp := rfl

theorem scoreResult_scores (sc : CatScores) (comp : Int) (pr0 : String) (issues : List Issue) :
    (score.scoreResult sc comp pr0 issues).individual_scores = sc := rfl

theorem scoreResult_critical (sc : CatScores) (comp : Int) (pr0 : String) (issues : List Issue) :
    (score.scoreResult sc comp pr0 issues).critical_issues =
      (issues.filter (sevIs "critical")).length := rfl

theorem scoreResult_warning (sc : CatScores) (comp : Int) (pr0 : String) (issues : List Issue) :
    (score.scoreResult sc comp pr0 issues).warning_issues =
      (issues.filter (sevIs "warning")).length := rfl

theorem scoreResult_total (sc : CatScores) (comp : Int) (pr0 : String) (issues : List Issue) :
    (score.scoreResult sc comp pr0 issues).total_issues = issues.length := rfl

theorem scoreResult_service (sc : CatScores) (comp : Int) (pr0 : String) (issues : List Issue) :
    (score.scoreResult sc comp pr0 issues).recommended_service = recommendService sc := by
  simp only [score.scoreResult]

theorem scoreResult_qual (sc : CatScores) (comp : Int) (pr0 : String) (issues : List Issue) :
    (score.scoreResult sc comp pr0 issues).qualification_score =
      qualificationScore comp ((issues.filter (sevIs "critical")).length) := rfl

theorem scoreResult_priority (sc : CatScores) (comp : Int) (pr0 : String) (issues : List Issue) :
    (score.scoreResult sc comp pr0 issues).priority =
      (if 5 ≤ (issues.filter (sevIs "critical")).length then "HOT"
       else if 3 ≤ (issues.filter (sevIs "critical")).length ∧ pr0 = "COLD" then "WARM"
       else pr0) := rfl

set_option maxHeartbeats 4000000 in
theorem recommendService_aux (P Q A B C D : Nat) :
    pitchService (minByVal ("performance", P)
      [("seo", Q), ("accessibility", A), ("mobile", B), ("ssl", C), ("meta_quality", D)]).1 =
    (if P = min P (min Q (min A (min B (min C D)))) then "Performance Optimization"
     else if Q = min P (min Q (min A (min B (min C D)))) then "SEO Improvement"
     else if A = min P (min Q (min A (min B (min C D)))) then "Accessibility & UX Fix"
     else if B = min P (min Q (min A (min B (min C D)))) then "Mobile Responsiveness"
     else if C = min P (min Q (min A (min B (min C D)))) then "Security Setup"
     else "SEO Foundation") := by
  simp only [minByVal]
  split_ifs <;> dsimp only at * <;> simp only [pitchService] <;> first | rfl | omega

theorem recommendService_unfold (s : CatScores) :
    recommendService s = pitchService
      (minByVal ("performance", s.performance)
        [("seo", s.seo), ("accessibility", s.accessibility), ("mobile", s.mobile),
         ("ssl", s.ssl), ("meta_quality", s.meta_quality)]).1 := by
  unfold recommendService
  simp only [List.filter, ne_eq, String.reduceEq, not_false_eq_true, decide_True, decide_False,
    decide_not, Bool.not_false, Bool.not_true, not_true_eq_false]

theorem recommendService_eq_spec (s : CatScores) :
    recommendService s = recommendServiceSpec s := by
  rw [recommendService_unfold, recommendService_aux]
  rfl

theorem classify_cases (c : Int) :
    (c < 50 → classify c = "HOT") ∧ (50 ≤ c ∧ c ≤ 69 → classify c = "WARM") ∧
      (70 ≤ c ∧ c ≤ 84 → classify c = "COLD") ∧ (85 ≤ c → classify c = "SKIP") := by
  unfold classify
  refine ⟨fun h => ?_, fun h => ?_, fun h => ?_, fun h => ?_⟩ <;>
    split_ifs <;> first | rfl | (exfalso; omega)

theorem sev_not_both (i : Issue) :
    ¬ (sevIs "critical" i = true ∧ sevIs "warning" i = true) := by
  rintro ⟨h1, h2⟩
  unfold sevIs at h1 h2
  cases hi : i.severity with
  | absent => rw [hi] at h1; exact absurd h1 (by norm_num)
  | pynone => rw [hi] at h1; exact absurd h1 (by norm_num)
  | val t =>
    rw [hi] at h1 h2
    have e1 : t = "critical" := by exact_mod_cast of_decide_eq_true h1
    have e2 : t = "warning" := by exact_mod_cast of_decide_eq_true h2
    rw [e1] at e2
    exact absurd e2 (by decide)

theorem count_two (l : List Issue) :
    ((l.filter (sevIs "critical")).length + (l.filter (sevIs "warning")).length ≤ l.length) ∧
      ((∃ i ∈ l, sevIs "critical" i = false ∧ sevIs "warning" i = false) →
        (l.filter (sevIs "critical")).length + (l.filter (sevIs "warning")).length < l.length) := by
  induction l with
  | nil =>
    constructor
    · simp
    · rintro ⟨i, hi, -⟩
      exact absurd hi (by simp)
  | cons x xs ih =>
    obtain ⟨ih1, ih2⟩ := ih
    have hboth := sev_not_both x
    constructor
    · rw [List.filter_cons, List.filter_cons]
      cases hc : sevIs "critical" x <;> cases hw : sevIs "warning" x <;>
        simp only [if_pos, if_neg, Bool.false_eq_true, List.length_cons] <;>
        simp_all <;> omega
    · rintro ⟨i, hi, hni⟩
      rw [List.filter_cons, List.filter_cons]
      rcases List.mem_cons.1 hi with he | hmem
      · subst he
        rw [hni.1, hni.2]
        simp only [Bool.false_eq_true, if_neg, List.length_cons]
        simp
        omega
      · have hlt := ih2 ⟨i, hmem, hni⟩
        cases hc : sevIs "critical" x <;> cases hw : sevIs "warning" x <;>
          simp_all <;> omega

theorem orZero_fill (f : PyVal Nat) : orZero (fillF f 0) = orZero f := by
  cases f <;> rfl

theorem truthy_fill (f : PyVal Bool) : truthy (fillF f false) = truthy f := by
  cases f <;> rfl

theorem load_fill (f : PyVal Nat) : loadSpeedScore (fillF f 0) = loadSpeedScore f := by
  cases f <;> rfl

theorem metaQuality_fill (a : Audit) : metaQuality (fillDefaults a) = metaQuality a := by
  unfold metaQuality fillDefaults
  dsimp only
  rw [truthy_fill, truthy_fill, truthy_fill, truthy_fill, truthy_fill]

theorem catScores_fill (a : Audit) : catScores (fillDefaults a) = catScores a := by
  unfold catScores
  congr 1
  · exact orZero_fill a.performance_score
  · exact orZero_fill a.seo_score
  · exact orZero_fill a.accessibility_score
  · rw [show (fillDefaults a).mobile_friendly = fillF a.mobile_friendly false from rfl,
      truthy_fill]
  · rw [show (fillDefaults a).ssl_valid = fillF a.ssl_valid false from rfl, truthy_fill]
  · exact metaQuality_fill a
  · exact load_fill a.load_time_ms

theorem score_fill (a : Audit) (h : ¬ a.major_issues = pynone) :
    score (fillDefaults a) = score a := by
  cases hm : a.major_issues with
  | pynone => exact absurd hm h
  | absent =>
    rw [score_eq_absent a hm, score_eq_val (fillDefaults a) []
      (by rw [show (fillDefaults a).major_issues = fillF a.major_issues [] from rfl, hm]; rfl)]
    rw [catScores_fill]
  | val l =>
    rw [score_eq_val a l hm, score_eq_val (fillDefaults a) l
      (by rw [show (fillDefaults a).major_issues = fillF a.major_issues [] from rfl, hm]; rfl)]
    rw [catScores_fill]

/-! ## The claims -/

/-- C1 (counterexample): the composite score is not the round-half-even
rounding of the exact weighted sum.  At category scores
(70, 98, 13, 100, 0, 60, 9) the exact weighted sum is 60.5, whose
round-half-even is 60, but the code's double-precision sum is slightly
above 60.5 and `round` returns 61.  The audit below produces exactly
those category scores. -/
theorem composite_not_half_even_at_tie :
    score ⟨val 70, val 98, val 13, val true, val false, val true, val true, val true,
        absent, absent, val 4610, val []⟩ =
      some ⟨61, "WARM", ⟨70, 98, 13, 100, 0, 60, 9⟩, 0, 0, 0, "Security Setup", 39⟩ ∧
      rhe20 (weightSum ⟨70, 98, 13, 100, 0, 60, 9⟩) = 60 ∧
      compositeFloat ⟨70, 98, 13, 100, 0, 60, 9⟩ ≠
        (rhe20 (weightSum ⟨70, 98, 13, 100, 0, 60, 9⟩) : Int) := by
  refine ⟨by decide, by decide, by decide⟩

/-- C1 (amended): the composite score equals the weighted sum of the
seven category scores with weights (0.25, 0.20, 0.15, 0.15, 0.10, 0.10,
0.05) rounded to a nearest integer: `20 * composite` is within 10 of
`weightSum`, the integer equal to twenty times the exact weighted sum.
This pins the composite uniquely except when the exact sum is
half-integral, where the direction of the accumulated double-precision
rounding error decides between the two neighbours instead of
round-half-to-even. -/
theorem composite_nearest_with_float_ties (s : CatScores)
    (hp : s.performance ≤ 100) (hs : s.seo ≤ 100) (ha : s.accessibility ≤ 100)
    (hm : s.mobile ≤ 100) (hl : s.ssl ≤ 100) (hq : s.meta_quality ≤ 100)
    (hd : s.load_speed ≤ 100) :
    |20 * compositeFloat s - (weightSum s : ℤ)| ≤ 10 :=
  compositeFloat_close s hp hs ha hm hl hq hd

theorem composite_nearest_with_float_ties_witness :
    |20 * compositeFloat ⟨70, 98, 13, 100, 0, 60, 9⟩ -
      (weightSum ⟨70, 98, 13, 100, 0, 60, 9⟩ : ℤ)| ≤ 10 :=
  composite_nearest_with_float_ties ⟨70, 98, 13, 100, 0, 60, 9⟩ (by norm_num) (by norm_num)
    (by norm_num) (by norm_num) (by norm_num) (by norm_num) (by norm_num)

/-- C2: the base priority computed from the composite score before
issue-count escalation is HOT below 50, WARM on 50-69, COLD on 70-84 and
SKIP from 85 up. -/
theorem classify_thresholds (c : Int) :
    (c < 50 → classify c = "HOT") ∧ (50 ≤ c ∧ c ≤ 69 → classify c = "WARM") ∧
      (70 ≤ c ∧ c ≤ 84 → classify c = "COLD") ∧ (85 ≤ c → classify c = "SKIP") :=
  classify_cases c

theorem classify_thresholds_witness :
    classify 49 = "HOT" ∧ classify 55 = "WARM" ∧ classify 84 = "COLD" ∧ classify 85 = "SKIP" :=
  ⟨(classify_thresholds 49).1 (by norm_num),
   (classify_thresholds 55).2.1 ⟨by norm_num, by norm_num⟩,
   (classify_thresholds 84).2.2.1 ⟨by norm_num, by norm_num⟩,
   (classify_thresholds 85).2.2.2 (by norm_num)⟩

/-- C3: the final priority applies the two sequential escalation rules
to the base classification: with at least 5 critical issues the priority
is HOT regardless of anything else; otherwise with at least 3 critical
issues a COLD base becomes WARM; otherwise the base priority stands.  In
particular a composite in [70, 84] with exactly 3 critical issues gives
WARM, and 5 or more critical issues always give HOT. -/
theorem priority_escalation (a : Audit) (r : ScoringResult) (h : score a = some r) :
    (r.priority = if 5 ≤ r.critical_issues then "HOT"
      else if 3 ≤ r.critical_issues ∧ classify r.composite_score = "COLD" then "WARM"
      else classify r.composite_score) ∧
    (70 ≤ r.composite_score ∧ r.composite_score ≤ 84 ∧ r.critical_issues = 3 →
      r.priority = "WARM") ∧
    (5 ≤ r.critical_issues → r.priority = "HOT") := by
  have hmain : ∀ (issues : List Issue),
      r = score.scoreResult (catScores a) (compositeFloat (catScores a))
        (classify (compositeFloat (catScores a))) issues →
      (r.priority = if 5 ≤ r.critical_issues then "HOT"
        else if 3 ≤ r.critical_issues ∧ classify r.composite_score = "COLD" then "WARM"
        else classify r.composite_score) ∧
      (70 ≤ r.composite_score ∧ r.composite_score ≤ 84 ∧ r.critical_issues = 3 →
        r.priority = "WARM") ∧
      (5 ≤ r.critical_issues → r.priority = "HOT") := by
    intro issues hr
    subst hr
    refine ⟨?_, ?_, ?_⟩
    · rw [scoreResult_priority, scoreResult_critical, scoreResult_composite]
    · rintro ⟨hc1, hc2, hc3⟩
      rw [scoreResult_critical] at hc3
      rw [scoreResult_composite] at hc1 hc2
      have hcold : classify (compositeFloat (catScores a)) = "COLD" :=
        (classify_cases _).2.2.1 ⟨hc1, hc2⟩
      rw [scoreResult_priority, hc3, if_neg (by omega : ¬ (5:ℕ) ≤ 3),
        if_pos ⟨by omega, hcold⟩]
    · intro h5
      rw [scoreResult_critical] at h5
      rw [scoreResult_priority, if_pos h5]
  cases hm : a.major_issues with
  | pynone =>
    rw [score_eq_pynone a hm] at h
    cases h
  | absent =>
    rw [score_eq_absent a hm] at h
    exact hmain [] (Option.some.inj h).symm
  | val l =>
    rw [score_eq_val a l hm] at h
    exact hmain l (Option.some.inj h).symm

theorem priority_escalation_witness :
    (score ⟨val 75, val 80, val 80, val true, val true, val true, val true, val true,
        val true, val true, absent,
        val [⟨val "critical"⟩, ⟨val "critical"⟩, ⟨val "critical"⟩]⟩ =
      some ⟨84, "WARM", ⟨75, 80, 80, 100, 100, 100, 50⟩, 3, 0, 3,
        "Performance Optimization", 31⟩) ∧
    (⟨84, "WARM", ⟨75, 80, 80, 100, 100, 100, 50⟩, 3, 0, 3,
        "Performance Optimization", 31⟩ : ScoringResult).priority = "WARM" := by
  refine ⟨by decide, ?_⟩
  exact (priority_escalation
    ⟨val 75, val 80, val 80, val true, val true, val true, val true, val true,
      val true, val true, absent,
      val [⟨val "critical"⟩, ⟨val "critical"⟩, ⟨val "critical"⟩]⟩
    ⟨84, "WARM", ⟨75, 80, 80, 100, 100, 100, 50⟩, 3, 0, 3,
      "Performance Optimization", 31⟩ (by decide)).2.1 (by decide)

/-- C4 (counterexample): a stored `load_time_ms` of 0 is falsy in
Python, so the code scores it 50, not the 100 the claim assigns to a
present value at most 1000 ms. -/
theorem load_speed_zero_ms_scores_50 :
    loadSpeedScore (val 0) = 50 ∧ loadSpeedScore (val 0) ≠ 100 := by
  refine ⟨by decide, by decide⟩

/-- C4 (amended): the load-speed category score is 50 when
`load_time_ms` is missing, `None` or 0; 100 for 1-1000 ms; 0 from
5000 ms up; and otherwise the double-precision evaluation of
`100 - ((ms - 1000) / 4000) * 100` truncated to an integer, which equals
the exact truncation `(5000 - ms) / 40` except at 3200 ms (44, not 45)
and 3240 ms (43, not 44).  The ramp midpoint 3000 ms scores exactly 50. -/
theorem load_speed_score_characterization :
    (∀ f : PyVal Nat, loadSpeedScore f = loadSpeedSpecAmended f) ∧
      loadSpeedScore (val 3000) = 50 := by
  constructor
  · intro f
    rw [loadSpeedScore_eq f]
    cases f <;> rfl
  · decide

/-- C5: the qualification score equals
`clamp(100 - composite + min(critical * 5, 25), 0, 100)` and always lies
in [0, 100].  The code only clamps from above; the lower clamp never
binds because the composite of a valid snapshot is at most 100. -/
theorem qualification_clamped (a : Audit) (r : ScoringResult) (hva : ValidAudit a)
    (h : score a = some r) :
    r.qualification_score =
      max 0 (min (100 - r.composite_score + min ((r.critical_issues : ℤ) * 5) 25) 100) ∧
      0 ≤ r.qualification_score ∧ r.qualification_score ≤ 100 := by
  obtain ⟨b1, b2, b3, b4, b5, b6, b7⟩ := catScores_le a hva
  have hc0 : 0 ≤ compositeFloat (catScores a) := compositeFloat_nonneg _
  have hc100 : compositeFloat (catScores a) ≤ 100 :=
    compositeFloat_le_100 _ b1 b2 b3 b4 b5 b6 b7
  have hmain : ∀ (issues : List Issue),
      r = score.scoreResult (catScores a) (compositeFloat (catScores a))
        (classify (compositeFloat (catScores a))) issues →
      r.qualification_score =
        max 0 (min (100 - r.composite_score + min ((r.critical_issues : ℤ) * 5) 25) 100) ∧
        0 ≤ r.qualification_score ∧ r.qualification_score ≤ 100 := by
    intro issues hr
    subst hr
    rw [scoreResult_qual, scoreResult_composite, scoreResult_critical]
    unfold qualificationScore
    refine ⟨by omega, by omega, by omega⟩
  cases hm : a.major_issues with
  | pynone =>
    rw [score_eq_pynone a hm] at h
    cases h
  | absent =>
    rw [score_eq_absent a hm] at h
    exact hmain [] (Option.some.inj h).symm
  | val l =>
    rw [score_eq_val a l hm] at h
    exact hmain l (Option.some.inj h).symm

theorem qualification_clamped_witness :
    (⟨84, "WARM", ⟨75, 80, 80, 100, 100, 100, 50⟩, 3, 0, 3,
        "Performance Optimization", 31⟩ : ScoringResult).qualification_score =
      max 0 (min (100 - (84 : ℤ) + min ((3 : ℤ) * 5) 25) 100) ∧
      0 ≤ (31 : ℤ) ∧ (31 : ℤ) ≤ 100 :=
  qualification_clamped
    ⟨val 75, val 80, val 80, val true, val true, val true, val true, val true,
      val true, val true, absent,
      val [⟨val "critical"⟩, ⟨val "critical"⟩, ⟨val "critical"⟩]⟩
    _ (by decide) (by decide)

/-- C6: the recommended service is obtained by taking the minimum
category score among the six categories other than load_speed, breaking
ties by the fixed precedence order (performance, seo, accessibility,
mobile, ssl, meta_quality; first minimum wins), and mapping the winner
through the static service table.  Being a pure function of the scores,
the choice is identical across repeated calls. -/
theorem recommended_service_min_rule (a : Audit) (r : ScoringResult) (h : score a = some r) :
    r.recommended_service = recommendServiceSpec r.individual_scores := by
  have hmain : ∀ (issues : List Issue),
      r = score.scoreResult (catScores a) (compositeFloat (catScores a))
        (classify (compositeFloat (catScores a))) issues →
      r.recommended_service = recommendServiceSpec r.individual_scores := by
    intro issues hr
    subst hr
    rw [scoreResult_service, scoreResult_scores]
    exact recommendService_eq_spec _
  cases hm : a.major_issues with
  | pynone =>
    rw [score_eq_pynone a hm] at h
    cases h
  | absent =>
    rw [score_eq_absent a hm] at h
    exact hmain [] (Option.some.inj h).symm
  | val l =>
    rw [score_eq_val a l hm] at h
    exact hmain l (Option.some.inj h).symm

theorem recommended_service_min_rule_witness :
    (⟨2, "HOT", ⟨0, 0, 0, 0, 0, 0, 50⟩, 0, 0, 0,
        "Performance Optimization", 98⟩ : ScoringResult).recommended_service =
      recommendServiceSpec
        (⟨2, "HOT", ⟨0, 0, 0, 0, 0, 0, 50⟩, 0, 0, 0,
          "Performance Optimization", 98⟩ : ScoringResult).individual_scores :=
  recommended_service_min_rule
    ⟨absent, absent, absent, absent, absent, absent, absent, absent, absent, absent,
      absent, absent⟩ _ (by decide)

/-- C7: the composite score is monotonically non-decreasing in each
individual category score: raising category scores pointwise (within the
0-100 range) never lowers the composite. -/
theorem composite_monotone (s s' : CatScores)
    (h1 : s.performance ≤ s'.performance) (h2 : s.seo ≤ s'.seo)
    (h3 : s.accessibility ≤ s'.accessibility) (h4 : s.mobile ≤ s'.mobile)
    (h5 : s.ssl ≤ s'.ssl) (h6 : s.meta_quality ≤ s'.meta_quality)
    (h7 : s.load_speed ≤ s'.load_speed)
    (hp : s'.performance ≤ 100) (hs : s'.seo ≤ 100) (ha : s'.accessibility ≤ 100)
    (hm : s'.mobile ≤ 100) (hl : s'.ssl ≤ 100) (hq : s'.meta_quality ≤ 100)
    (hd : s'.load_speed ≤ 100) :
    compositeFloat s ≤ compositeFloat s' :=
  compositeFloat_mono s s' h1 h2 h3 h4 h5 h6 h7 hp hs ha hm hl hq hd

theorem composite_monotone_witness :
    compositeFloat ⟨50, 50, 50, 0, 0, 40, 50⟩ ≤ compositeFloat ⟨80, 50, 50, 0, 0, 40, 50⟩ :=
  composite_monotone ⟨50, 50, 50, 0, 0, 40, 50⟩ ⟨80, 50, 50, 0, 0, 40, 50⟩
    (by norm_num) (by norm_num) (by norm_num) (by norm_num) (by norm_num) (by norm_num)
    (by norm_num) (by norm_num) (by norm_num) (by norm_num) (by norm_num) (by norm_num)
    (by norm_num) (by norm_num)

/-- C8: holding the critical count fixed, the qualification score is
non-increasing in the composite score on [0, 100]; and
`qualification + composite` is not a fixed constant. -/
theorem qualification_antitone :
    (∀ (k : Nat) (c1 c2 : Int), 0 ≤ c1 → c1 < c2 → c2 ≤ 100 →
      qualificationScore c2 k ≤ qualificationScore c1 k) ∧
      qualificationScore 20 5 + 20 ≠ qualificationScore 0 0 + 0 := by
  constructor
  · intro k c1 c2 hc1 hc12 hc2
    unfold qualificationScore
    omega
  · decide

theorem qualification_antitone_witness :
    qualificationScore 50 2 ≤ qualificationScore 30 2 :=
  qualification_antitone.1 2 30 50 (by norm_num) (by norm_num) (by norm_num)

/-- C9 (counterexample): an audit whose `major_issues` key is present
with value `None` makes `score` raise: `audit.get('major_issues', [])`
returns `None` and `sum(1 for i in issues ...)` then throws `TypeError`.
In the embedding this is the `none` result, so `score` does not return a
`ScoringResult` for this documented field being `None`. -/
theorem score_none_issues_raises :
    score ⟨absent, absent, absent, absent, absent, absent, absent, absent, absent,
      absent, absent, pynone⟩ = none := by decide

/-- C9 (amended): except for a stored-`None` `major_issues`, `score` is
total and substitutes the documented defaults: it returns a result, and
replacing every missing or `None` field by its explicit default (numeric
scores 0, booleans false, load time 0 which scores the neutral 50, issue
list empty) produces the identical result.  Determinism is definitional:
the scorer is a pure function. -/
theorem score_total_with_defaults (a : Audit) (h : ¬ a.major_issues = pynone) :
    (∃ r, score a = some r) ∧ score (fillDefaults a) = score a := by
  refine ⟨?_, score_fill a h⟩
  cases hm : a.major_issues with
  | pynone => exact absurd hm h
  | absent => exact ⟨_, score_eq_absent a hm⟩
  | val l => exact ⟨_, score_eq_val a l hm⟩

theorem score_total_with_defaults_witness :
    (∃ r, score ⟨absent, absent, absent, absent, absent, absent, absent, absent, absent,
        absent, absent, absent⟩ = some r) ∧
      score (fillDefaults ⟨absent, absent, absent, absent, absent, absent, absent, absent,
        absent, absent, absent, absent⟩) =
        score ⟨absent, absent, absent, absent, absent, absent, absent, absent, absent,
          absent, absent, absent⟩ :=
  score_total_with_defaults
    ⟨absent, absent, absent, absent, absent, absent, absent, absent, absent, absent,
      absent, absent⟩ (by decide)

/-- C10: the returned issue counters satisfy
`critical_issues + warning_issues ≤ total_issues`, with `total_issues`
the length of `major_issues`; an issue whose severity is neither
"critical" nor "warning" makes the inequality strict. -/
theorem issue_counts_bound (a : Audit) (r : ScoringResult) (h : score a = some r) :
    (r.critical_issues + r.warning_issues ≤ r.total_issues) ∧
      (∀ l, a.major_issues = val l →
        (∃ i ∈ l, sevIs "critical" i = false ∧ sevIs "warning" i = false) →
        r.critical_issues + r.warning_issues < r.total_issues) := by
  cases hm : a.major_issues with
  | pynone =>
    rw [score_eq_pynone a hm] at h
    cases h
  | absent =>
    rw [score_eq_absent a hm] at h
    have hr := (Option.some.inj h).symm
    subst hr
    rw [scoreResult_critical, scoreResult_warning, scoreResult_total]
    refine ⟨by simp, ?_⟩
    intro l hl hex
    simp at hl
  | val l =>
    rw [score_eq_val a l hm] at h
    have hr := (Option.some.inj h).symm
    subst hr
    rw [scoreResult_critical, scoreResult_warning, scoreResult_total]
    refine ⟨(count_two l).1, ?_⟩
    intro l' hl' hex
    injection hl' with he
    subst he
    exact (count_two l).2 hex

theorem issue_counts_bound_witness :
    (⟨2, "HOT", ⟨0, 0, 0, 0, 0, 0, 50⟩, 1, 1, 3,
        "Performance Optimization", 100⟩ : ScoringResult).critical_issues +
      (⟨2, "HOT", ⟨0, 0, 0, 0, 0, 0, 50⟩, 1, 1, 3,
        "Performance Optimization", 100⟩ : ScoringResult).warning_issues ≤
      (⟨2, "HOT", ⟨0, 0, 0, 0, 0, 0, 50⟩, 1, 1, 3,
        "Performance Optimization", 100⟩ : ScoringResult).total_issues :=
  (issue_counts_bound
    ⟨absent, absent, absent, absent, absent, absent, absent, absent, absent, absent,
      absent, val [⟨val "critical"⟩, ⟨val "warning"⟩, ⟨val "info"⟩]⟩ _ (by decide)).1
